import Mathlib

/-!
A shallow embedding of the validation and harmonization core of the
radx-harmonizer repository (src/utils.py, src/phase2.py, src/phase3.py),
together with theorems settling the specified behavioral claims.

Cells of the tabular data are untyped strings; Python's `int(...)` /
`float(...)` acceptance tests are modelled over ASCII text (the data the
pipeline handles), including CPython's sign, surrounding-whitespace,
digit-group underscore, and inf/nan rules.  Pandas data frames are
modelled as association lists: a data table is a list of
(column name, cell values) pairs, a dictionary table is a list of rows.
Python exceptions (`ValueError` from `get_enum_values`, `KeyError` from
`yes_no_combiner`) are modelled with `Except String`.
-/

namespace RadxHarmonizer

/-- Whitespace accepted by Python's `str.strip` / `int` / `float`
(ASCII range). -/
def isPyWs (c : Char) : Bool :=
  c == ' ' || c == '\t' || c == '\n' || c == '\r' || c == '\x0b' || c == '\x0c'

/-- Python `str.strip()` on a character list. -/
def pyStripList (l : List Char) : List Char :=
  ((l.dropWhile isPyWs).reverse.dropWhile isPyWs).reverse

/-- Python `str.strip()`. -/
def pyStrip (s : String) : String :=
  (pyStripList s.toList).asString

/-- Consume a run of digits that may contain single underscores between
digits (CPython digit-part grammar, 3.6+); returns the unconsumed rest.
The leading digit has already been consumed by `parseDigitsU`. -/
def parseDigitsURest : List Char → List Char
  | '_' :: c :: rest => if c.isDigit then parseDigitsURest rest else '_' :: c :: rest
  | c :: rest => if c.isDigit then parseDigitsURest rest else c :: rest
  | [] => []

/-- Consume a CPython digit part (at least one digit, single underscores
allowed between digits); `none` when no leading digit. -/
def parseDigitsU : List Char → Option (List Char)
  | c :: rest => if c.isDigit then some (parseDigitsURest rest) else none
  | [] => none

/-- Optional single `+`/`-` sign. -/
def parseSign : List Char → List Char
  | '+' :: rest => rest
  | '-' :: rest => rest
  | l => l

/-- Whether Python `int(value)` succeeds (ASCII decimal text). -/
def pyIntParses (s : String) : Bool :=
  let l := pyStripList s.toList
  match parseDigitsU (parseSign l) with
  | some [] => true
  | _ => false

/-- Mantissa of the CPython `float` grammar:
`digitpart ["." [digitpart]]` or `"." digitpart`. -/
def parseMantissa (l : List Char) : Option (List Char) :=
  match parseDigitsU l with
  | some rest =>
    match rest with
    | '.' :: r2 =>
      match parseDigitsU r2 with
      | some r3 => some r3
      | none => some r2
    | _ => some rest
  | none =>
    match l with
    | '.' :: r2 => parseDigitsU r2
    | _ => none

/-- Exponent of the CPython `float` grammar: `("e"|"E") [sign] digitpart`. -/
def parseExponent : List Char → Option (List Char)
  | c :: rest =>
    if c == 'e' || c == 'E' then parseDigitsU (parseSign rest) else none
  | [] => none

/-- Whether Python `float(value)` succeeds (ASCII text): optional sign,
then `inf`/`infinity`/`nan` case-insensitively, or a mantissa with an
optional exponent. -/
def pyFloatParses (s : String) : Bool :=
  let l := pyStripList s.toList
  let body := parseSign l
  let lower := (body.map Char.toLower).asString
  if lower == "inf" || lower == "infinity" || lower == "nan" then true
  else
    match parseMantissa body with
    | some [] => true
    | some rest =>
      match parseExponent rest with
      | some [] => true
      | _ => false
    | none => false

/-- Python's `"|" in value`, on the character list (the byte-position
based `String.contains` does not evaluate inside the kernel). -/
def strContains (s : String) (c : Char) : Bool :=
  s.toList.contains c

/-- Model of `value.split("|")` on a character list. -/
def splitOnPipeList : List Char → List (List Char)
  | [] => [[]]
  | c :: rest =>
    match splitOnPipeList rest with
    | h :: t => if c == '|' then [] :: h :: t else (c :: h) :: t
    | [] => [[c]]

/-- Python `value.split("|")`. -/
def pySplitPipe (s : String) : List String :=
  (splitOnPipeList s.toList).map List.asString

/-- Keep-first deduplication with an accumulator of already seen
elements (structurally recursive, so the kernel can evaluate it). -/
def uniqueListAux {α} [BEq α] (seen : List α) : List α → List α
  | [] => []
  | a :: rest =>
    if seen.contains a then uniqueListAux seen rest
    else a :: uniqueListAux (a :: seen) rest

/-- Order-preserving keep-first deduplication: the model of a Python set
built from a traversal, and of pandas `unique()`. -/
def uniqueList {α} [BEq α] (l : List α) : List α :=
  uniqueListAux [] l

/-- Model of `NULL_VALUES` (utils.py): null spellings replaced by the empty string. -/
def NULL_VALUES : List String :=
  ["N/A", "NA", "NULL", "NaN", "None", "n/a", "nan", "null"]

/-- The cell-level effect of `remove_na` (utils.py): `df.replace` maps a
cell that equals a recognized null spelling to the empty string. -/
def normNA (value : String) : String :=
  if NULL_VALUES.contains value then "" else value

/-- Model of `determine_type` on a value without the pipe character (utils.py,
lines 894-908): blank, preserved null spelling, integer, float, string. -/
def determineTypeScalar (value : String) : String :=
  if value == "" then "blank"
  else if NULL_VALUES.contains value then value
  else if pyIntParses value then "integer"
  else if pyFloatParses value then "float"
  else "string"

/-- The multi-value collapse in `determine_type` (utils.py, lines 883-892):
the set of sub-value types, with `{integer, float}` collapsed to `float`,
and any remaining plurality collapsed to `string`.  The Python set is
modelled by order-preserving deduplication; `headD` covers the empty case,
which cannot arise from a split (a split yields at least one piece). -/
def collapseTypes (types : List String) : String :=
  let ts := uniqueList types
  let ts :=
    if ts.length == 2 && ts.contains "integer" && ts.contains "float" then
      ["float"]
    else ts
  if ts.length > 1 then "string" else ts.headD ""

/-- Model of `determine_type` (utils.py, lines 881-908).  A value containing the
pipe character is split on it and each piece (pipe-free, so scalar) is
classified independently; otherwise the value is classified directly. -/
def determine_type (value : String) : String :=
  if strContains value '|' then
    collapseTypes ((pySplitPipe value).map determineTypeScalar)
  else determineTypeScalar value

/-- Model of `get_column_type` (utils.py, lines 852-864): unique value types of a
column, blanks dropped, an integer-and-float pair collapsed to float.
`df[...].unique()` preserves first-occurrence order, modelled by
`uniqueList`. -/
def get_column_type (values : List String) : List String :=
  let types := uniqueList (values.map determine_type)
  let types := types.erase "blank"
  if types.length == 2 && types.contains "integer" && types.contains "float" then
    ["float"]
  else types

/-- Model of `get_column_cardinality` (utils.py, lines 867-873). -/
def get_column_cardinality (values : List String) : String :=
  if values.any (fun v => strContains v '|') then "multiple" else "single"

/-- Model of `determine_cardinality` (utils.py, lines 925-931). -/
def determine_cardinality (data_type : String) : String :=
  if data_type == "list" || data_type == "checkbox" then "multiple" else "single"

/-- Model of `get_offending_data_values` (utils.py, lines 876-878): the set of
distinct values of the column whose rows were classified `string`
(modelled as an order-preserving deduplicated list). -/
def get_offending_data_values (values : List String) : List String :=
  uniqueList (values.filter (fun v => determine_type v == "string"))

/-! ### Enumeration grammar (ENUM_PATTERN_INT / ENUM_PATTERN_STR)

`re.findall` of the pattern `(CODE),\s*([^|]+)\s*(?:\||$)` — with CODE a
nonempty run of digits (`ENUM_PATTERN_INT`) or of ASCII uppercase letters
(`ENUM_PATTERN_STR`) — scans left to right, attempts a match at each
position, and on success resumes after the match.  A match at a position
is: a maximal CODE run followed by a comma (a shortened run is followed by
a CODE character, never a comma, so backtracking inside the run cannot
succeed), then the tail `\s*([^|]+)\s*(?:\||$)`, which succeeds exactly
when at least one character precedes the next pipe (or the end), the label
group being the text between the greedy whitespace run and the pipe — or,
when only whitespace precedes the pipe, the last whitespace character. -/

/-- Match `\s*([^|]+)\s*(?:\||$)` at the head of `rest`; on success,
return the label group and the unconsumed remainder. -/
def matchEnumTail (rest : List Char) : Option (String × List Char) :=
  let p := (rest.takeWhile (fun c => c != '|')).length
  if p == 0 then none
  else
    let w0 := (rest.takeWhile isPyWs).length
    let label :=
      if w0 < p then (rest.drop w0).take (p - w0)
      else (rest.drop (w0 - 1)).take 1
    some (label.asString, rest.drop (p + 1))

/-- Attempt a coded-enum match at the head of `s`: a nonempty CODE run,
a comma, then the tail.  Returns (code, label, remainder). -/
def tryMatchEnum (isCode : Char → Bool) (s : List Char) :
    Option (String × String × List Char) :=
  let run := s.takeWhile isCode
  if run.isEmpty then none
  else
    match s.drop run.length with
    | ',' :: rest =>
      match matchEnumTail rest with
      | some (label, remaining) => some (run.asString, label, remaining)
      | none => none
    | _ => none




/-- Model of `re.findall` for the coded-enum patterns, structurally recursive on a
fuel argument so that the kernel can evaluate it: scan positions left to
right, collect (code, label) pairs, resume after each match.  Each step
strictly shortens the text, so any fuel exceeding the text length gives
the same result (`scanCodedEnumsFuel_congr`); the fuel-exhausted branch
is unreachable for the fuel used by `scanCodedEnums`. -/
def scanCodedEnumsFuel (isCode : Char → Bool) :
    Nat → List Char → List (String × String)
  | 0, _ => []
  | fuel + 1, s =>
    match tryMatchEnum isCode s with
    | some (code, label, rem) =>
      (code, label) :: scanCodedEnumsFuel isCode fuel rem
    | none =>
      match s with
      | [] => []
      | _ :: rest => scanCodedEnumsFuel isCode fuel rest


/-- Model of `re.findall` for the coded-enum patterns over a text. -/
def scanCodedEnums (isCode : Char → Bool) (s : List Char) :
    List (String × String) :=
  scanCodedEnumsFuel isCode (s.length + 1) s

/-- The integer value of a nonempty digit run, as computed by Python
`int` (so `str` of it drops leading zeros). -/
def digitsToNat (s : String) : Nat :=
  s.toList.foldl (fun n c => 10 * n + (c.toNat - 48)) 0

/-- Model of `parse_integer_enums` (utils.py, lines 969-973): `re.findall` of
`ENUM_PATTERN_INT`, each code converted with `int`, each label stripped. -/
def parse_integer_enums (enum : String) : List (Nat × String) :=
  (scanCodedEnums Char.isDigit enum.toList).map
    (fun p => (digitsToNat p.1, pyStrip p.2))

/-- Model of `parse_string_enums` (utils.py, lines 976-980): `re.findall` of
`ENUM_PATTERN_STR`, code and label stripped. -/
def parse_string_enums (enum : String) : List (String × String) :=
  (scanCodedEnums Char.isUpper enum.toList).map
    (fun p => (pyStrip p.1, pyStrip p.2))

/-- Model of `parse_value_enums` (utils.py, lines 983-990): split on the pipe,
strip each token; the result counts as a match only when the first token
is nonempty. -/
def parse_value_enums (enum : String) : List String :=
  let values := (pySplitPipe enum).map pyStrip
  if values.length > 0 && (values.headD "").length > 0 then values else []

/-- Model of `get_enum_values` (utils.py, lines 1079-1100): the three grammars
tried in order, first match wins; integer codes are rendered back to
strings; an unparseable nonempty choices field raises `ValueError`,
modelled as `Except.error`. -/
def get_enum_values (enum : String) : Except String (List String) :=
  let pi := parse_integer_enums enum
  if pi.length > 0 then .ok (pi.map (fun item => toString item.1))
  else
    let ps := parse_string_enums enum
    if ps.length > 0 then .ok (ps.map (fun item => item.1))
    else
      let pv := parse_value_enums enum
      if pv.length > 0 then .ok pv
      else .error ("Could not parse enum values for the input: " ++ enum)

/-- Model of `convert_data_type` (utils.py, lines 934-966): effective comparison
type of a dictionary row, derived from the choices field when it matches
a coded enumeration or contains a pipe, else from the declared type. -/
def convert_data_type (data_type enum : String) : String :=
  if (parse_integer_enums enum).length > 0 then "integer"
  else if (parse_string_enums enum).length > 0 then "string"
  else if strContains enum '|' then "string"
  else if data_type ∈ ["text", "list", "url", "date", "time", "sequence",
      "category", "yesno", "radio", "dropdown", "checkbox", "zipcode"] then
    "string"
  else data_type

/-! ### Diagnostics (append_error / append_warning)

Error records are `{severity, filename, message}` dictionaries appended to
a shared list.  The f-string messages of the source are modelled by a
structured message type, one constructor per message site, carrying the
interpolated data. -/

inductive Severity where
  | ERROR
  | WARN
deriving Repr, DecidableEq

inductive Msg where
  | multipleValuesNotAllowed (column : String)
  | invalidDataType (column : String) (dictType : Option String) (dataType : String)
  | mixedDataTypes (column : String) (types : List String) (dictType : Option String)
  | stringValuesFound (column : String) (values : List String)
  | missingDataElements (elements : List String)
  | addedMissingDataElements (elements : List String)
  | invalidEnumValues (column : String) (mismatches : List String)
  | invalidOrigcopyCount (origcopies preorigcopies : Nat)
  | invalidTransformcopyCount (transformcopies : Nat)
deriving Repr, DecidableEq

structure ErrorRec where
  severity : Severity
  filename : String
  message : Msg
deriving Repr, DecidableEq

/-- Model of `append_error` (utils.py, lines 229-237); `os.path.basename` is the
identity on the plain file names used here. -/
def append_error (message : Msg) (filename : String) : ErrorRec :=
  ⟨Severity.ERROR, filename, message⟩

/-- Model of `append_warning` (utils.py, lines 240-248). -/
def append_warning (message : Msg) (filename : String) : ErrorRec :=
  ⟨Severity.WARN, filename, message⟩

/-! ### Tables -/

/-- A dictionary row restricted to the eight `COLUMN_MAP` columns, the
shape every dictionary has after `fix_dictionary_columns`. -/
structure DictRow where
  varName : String        -- "Variable / Field Name"
  sectionHeader : String  -- "Section Header"
  fieldType : String      -- "Field Type"
  fieldLabel : String     -- "Field Label"
  choices : String        -- "Choices, Calculations, OR Slider Labels"
  fieldNote : String      -- "Field Note"
  unit : String           -- "Unit"
  cdeReference : String   -- "CDE Reference"
deriving Repr, DecidableEq

/-- A data table: columns in order, each with its cell values. -/
abbrev DataTable := List (String × List String)

/-- Column lookup, `data[name]`. -/
def lookupColumn (data : DataTable) (name : String) : Option (List String) :=
  (data.find? (fun p => p.1 == name)).map (fun p => p.2)

/-- Model of `set_index("Variable / Field Name")[...].to_dict()`: later rows with
the same identifier overwrite earlier ones, so lookup finds the last. -/
def lookupDictLast (rows : List DictRow) (name : String) : Option DictRow :=
  rows.reverse.find? (fun r => r.varName == name)

/-- Model of `get_dictionary_data_types` (utils.py, lines 839-849). -/
def get_dictionary_data_types (rows : List DictRow) (name : String) :
    Option String :=
  (lookupDictLast rows name).map (fun r => convert_data_type r.fieldType r.choices)

/-- Model of `get_dictionary_cardinality` (utils.py, lines 911-922). -/
def get_dictionary_cardinality (rows : List DictRow) (name : String) :
    Option String :=
  (lookupDictLast rows name).map (fun r => determine_cardinality r.fieldType)

/-! ### check_data_type -/

/-- The body of the per-column loop of `check_data_type` (utils.py,
lines 800-834), on the values of one data column.  `remove_na` has
normalized null spellings to blank before the data file is re-read,
modelled by mapping `normNA` over the cells.  Comparisons with a `None`
dictionary entry (`dict_types.get` miss) are modelled on `Option`:
Python's `x == None` is `False` for a string `x`. -/
def check_data_type_column (data_file : String) (dictRows : List DictRow)
    (column : String) (rawValues : List String) : List ErrorRec :=
  if column == "type" || column == "cardinality" then []
  else
    let values := rawValues.map normNA
    let cardErrs :=
      if get_column_cardinality values == "multiple"
          && get_dictionary_cardinality dictRows column == some "single" then
        [append_error (Msg.multipleValuesNotAllowed column) data_file]
      else []
    let types := get_column_type values
    let dict_type := get_dictionary_data_types dictRows column
    let typeErrs :=
      match types with
      | [t] =>
        if some t == dict_type then []
        else if dict_type == some "string" && t == "integer" then []
        else if dict_type == some "float" && t == "integer" then []
        else [append_error (Msg.invalidDataType column dict_type t) data_file]
      | [] => []
      | ts =>
        if dict_type != some "string" then
          [append_error (Msg.mixedDataTypes column ts dict_type) data_file,
           append_error
             (Msg.stringValuesFound column (get_offending_data_values values))
             data_file]
        else []
    cardErrs ++ typeErrs

/-- Model of `check_data_type` (utils.py, lines 786-836): the errors appended for
a data table checked against a dictionary, in column order. -/
def check_data_type (data_file : String) (data : DataTable)
    (dictRows : List DictRow) : List ErrorRec :=
  data.flatMap (fun c => check_data_type_column data_file dictRows c.1 c.2)

/-! ### check_enums -/

/-- Model of `get_multi_value_fields` (utils.py, lines 1064-1076). -/
def get_multi_value_fields (rows : List DictRow) : List String :=
  (rows.filter (fun r => r.fieldType == "list" || r.fieldType == "checkbox")).map
    (fun r => r.varName)

/-- Model of `expand_column_values` (utils.py, lines 1032-1040); the Python set is
modelled as an order-preserving deduplicated list. -/
def expand_column_values (column_values : List String) : List String :=
  uniqueList (column_values.flatMap
    (fun v => if strContains v '|' then pySplitPipe v else [v]))

/-- Model of `get_allowed_values` (utils.py, lines 1043-1061): rows with a
nonempty choices field, each parsed by `get_enum_values` (whose
`ValueError` propagates), keyed by identifier in row order.  The
dict-overwrite semantics for duplicate identifiers is not reproduced;
theorems below assume distinct identifiers. -/
def get_allowed_values (rows : List DictRow) :
    Except String (List (String × List String)) :=
  (rows.filter (fun r => r.choices != "")).mapM
    (fun r => (get_enum_values r.choices).map (fun vs => (r.varName, vs)))

/-- The body of the per-column loop of `check_enums` (utils.py, lines
1011-1026): distinct non-blank observed values, expanded for multi-value
fields, compared against the allowed set; at most one error per column.
A column named in the dictionary but absent from the data raises
`KeyError` in the source (`data[column]`). -/
def checkEnumColumn (data_file : String) (data : DataTable)
    (multi : List String) (column : String) (enum_values : List String) :
    Except String (List ErrorRec) :=
  match lookupColumn data column with
  | none => .error ("KeyError: " ++ column)
  | some vals =>
    let column_values := (uniqueList vals).filter (fun v => v != "")
    let column_values :=
      if multi.contains column then expand_column_values column_values
      else column_values
    let mismatches := column_values.filter (fun v => !enum_values.contains v)
    .ok (if mismatches.length > 0 then
      [append_error (Msg.invalidEnumValues column mismatches) data_file]
    else [])

/-- Model of `check_enums` (utils.py, lines 993-1029). -/
def check_enums (data_file : String) (data : DataTable)
    (dictRows : List DictRow) : Except String (List ErrorRec) := do
  let allowed ← get_allowed_values dictRows
  let multi := get_multi_value_fields dictRows
  let lists ← allowed.mapM (fun p => checkEnumColumn data_file data multi p.1 p.2)
  return lists.flatten

/-! ### data_dict_matcher_new -/

/-- The placeholder row built by the loop of `add_missing_data_elements`
(utils.py, lines 1329-1336): the identifier column holds the missing data
element, every other column the empty string. -/
def placeholderRow (data_element : String) : DictRow :=
  ⟨data_element, "", "", "", "", "", "", ""⟩

/-- Model of `add_missing_data_elements` (utils.py, lines 1326-1342). -/
def add_missing_data_elements (dictionary : List DictRow)
    (missing_data_elements : List String) : List DictRow :=
  dictionary ++ missing_data_elements.map placeholderRow

/-- Model of `add_harmonized_data_elements` (utils.py, lines 1345-1355): the
harmonized reference rows are prepended to the dataset's rows. -/
def add_harmonized_data_elements (dictionary harmonized : List DictRow) :
    List DictRow :=
  harmonized ++ dictionary

/-- Model of `drop_duplicates(subset="Variable / Field Name")`: keep the first row
for each identifier, preserving order. -/
def dropDupByNameAux (seen : List String) : List DictRow → List DictRow
  | [] => []
  | r :: rest =>
    if seen.contains r.varName then dropDupByNameAux seen rest
    else r :: dropDupByNameAux (r.varName :: seen) rest

def dropDupByName (rows : List DictRow) : List DictRow :=
  dropDupByNameAux [] rows

/-- Model of `reorder_data_dictionary` (utils.py, lines 1358-1370): a stable
categorical sort of the rows by the position of their identifier in the
data-column order.  At its call site the rows have pairwise distinct
identifiers, all of which occur among the data columns, so the sort
equals picking each data column's unique row in data-column order. -/
def reorder_data_dictionary (dictionary : List DictRow)
    (data_fields : List String) : List DictRow :=
  data_fields.filterMap (fun c => dictionary.find? (fun r => r.varName == c))

/-- Model of `data_dict_matcher_new` (utils.py, lines 1257-1306) after the two
tables are read and `fix_dictionary_columns` has put the dictionary into
the eight-column shape: prepend the harmonized reference rows, keep only
rows whose identifier is a data column, append a placeholder row (plus an
ERROR and a WARN) for each data column with no dictionary row, drop
duplicate identifiers keeping the first, and reorder to data-column
order.  Returns the written dictionary, the appended diagnostics, and the
returned `error` flag.  The Python set difference
`list(data_fields - data_elements)` enumerates distinct missing columns
in arbitrary order; it is modelled in data-column order. -/
def matchedDictionary (dataCols : List String)
    (dictRows harmonizedRows : List DictRow) : List DictRow :=
  (add_harmonized_data_elements dictRows harmonizedRows).filter
    (fun r => dataCols.contains r.varName)

/-- Model of `list(data_fields - data_elements)` in
`data_dict_matcher_new`: the
distinct data columns with no dictionary row (the Python set difference
enumerates them in arbitrary order; modelled in data-column order). -/
def missingDataElementsOf (dataCols : List String)
    (dictRows harmonizedRows : List DictRow) : List String :=
  uniqueList (dataCols.filter
    (fun c => !((matchedDictionary dataCols dictRows harmonizedRows).any
      (fun r => r.varName == c))))

def data_dict_matcher_new (dict_file : String) (dataCols : List String)
    (dictRows harmonizedRows : List DictRow) :
    List DictRow × List ErrorRec × Bool :=
  let dictionary := matchedDictionary dataCols dictRows harmonizedRows
  let missing := missingDataElementsOf dataCols dictRows harmonizedRows
  let step :=
    if missing.length > 0 then
      (add_missing_data_elements dictionary missing,
       [append_error (Msg.missingDataElements missing) dict_file,
        append_warning (Msg.addedMissingDataElements missing) dict_file],
       true)
    else (dictionary, [], false)
  let deduped := dropDupByName step.1
  (reorder_data_dictionary deduped dataCols, step.2.1, step.2.2)

/-! ### final_consistency_check -/

/-- Model of `final_consistency_check` (utils.py, lines 1809-1835), abstracted
over the three glob counts: an ERROR naming the origcopy directory when
its count is not a multiple of 3 or is below the preorigcopy count, an
ERROR naming the transformcopy directory when its count is not a multiple
of 3; a failing count is reported back as -1. -/
def final_consistency_check (origcopy_dir transformcopy_dir : String)
    (preorigcopies origcopies transformcopies : Nat) :
    List ErrorRec × Int × Int :=
  let orig :=
    if origcopies % 3 != 0 || origcopies < preorigcopies then
      ([append_error (Msg.invalidOrigcopyCount origcopies preorigcopies)
          (origcopy_dir ++ " directory")], (-1 : Int))
    else ([], (origcopies : Int))
  let trans :=
    if transformcopies % 3 != 0 then
      ([append_error (Msg.invalidTransformcopyCount transformcopies)
          (transformcopy_dir ++ " directory")], (-1 : Int))
    else ([], (transformcopies : Int))
  (orig.1 ++ trans.1, orig.2, trans.2)

/-! ### is_newer and the phase2 copy-in stage -/

/-- The file system as far as the copy-in stage observes it: each path's
modification time, or `none` when the file does not exist. -/
abbrev Mtimes := String → Option Nat

/-- Model of `is_newer` (utils.py, lines 674-679): true when the second file does
not exist or the first file is strictly newer.  `os.path.getmtime` on a
missing first file raises; in `step1` the first file always exists (it
came from a glob), so that branch is modelled as `false`. -/
def is_newer (mtimes : Mtimes) (filename1 filename2 : String) : Bool :=
  match mtimes filename2 with
  | none => true
  | some t2 =>
    match mtimes filename1 with
    | some t1 => decide (t1 > t2)
    | none => false

/-- Model of `shutil.copyfile`: the destination is (re)created; its modification
time becomes the wall-clock time of the copy (`copyfile` does not
preserve the source's mtime). -/
def copyfile (mtimes : Mtimes) (dst : String) (now : Nat) : Mtimes :=
  fun f => if f == dst then some now else mtimes f

/-- The copy loop of phase2 `step1` (phase2.py, lines 157-171): for each
(source, destination) pair in order, copy exactly when `is_newer`.
Returns the resulting file system and the pairs actually copied, in
order; all copies of one run carry the same wall-clock stamp `now`. -/
def step1Run (mtimes : Mtimes) (pairs : List (String × String)) (now : Nat) :
    Mtimes × List (String × String) :=
  pairs.foldl
    (fun acc p =>
      if is_newer acc.1 p.1 p.2 then (copyfile acc.1 p.2 now, acc.2 ++ [p])
      else acc)
    (mtimes, [])

/-! ### yes/no pair combination -/

/-- Model of `YES_NO_MAPPINGS` (utils.py, lines 218-226). -/
def YES_NO_MAPPINGS : List (String × String) :=
  [("11", "1"), ("10", "1"), ("01", "1"), ("00", "0"),
   ("1", "1"), ("0", "0"), ("", "")]

/-- Model of `yes_no_combiner` (utils.py, lines 1691-1695): dictionary lookup of
the concatenated pair; a missing key raises `KeyError`. -/
def yes_no_combiner (cde1 cde2 : String) : Except String String :=
  match YES_NO_MAPPINGS.lookup (cde1 ++ cde2) with
  | some v => .ok v
  | none => .error ("KeyError: " ++ cde1 ++ cde2)

/-- Rename a column in place. -/
def renameColumn (data : DataTable) (fromName toName : String) : DataTable :=
  data.map (fun c => if c.1 == fromName then (toName, c.2) else c)

/-- Model of `combine_yes_no_cdes` (utils.py, lines 1662-1675): when only one of
the two source columns exists it is renamed to the combined name; when
both exist, the rows are combined with `yes_no_combiner` (whose
`KeyError` propagates), written over the first column's position, the
second column dropped, and the first renamed. -/
def combine_yes_no_cdes (data : DataTable) (cde : String) :
    Except String DataTable :=
  let cde1 := cde ++ "1"
  let cde2 := cde ++ "2"
  let has1 := (lookupColumn data cde1).isSome
  let has2 := (lookupColumn data cde2).isSome
  if has1 && !has2 then .ok (renameColumn data cde1 cde)
  else if has2 && !has1 then .ok (renameColumn data cde2 cde)
  else if has1 && has2 then do
    let v1 := (lookupColumn data cde1).getD []
    let v2 := (lookupColumn data cde2).getD []
    let combined ← (v1.zip v2).mapM (fun p => yes_no_combiner p.1 p.2)
    .ok ((data.filter (fun c => c.1 != cde2)).map
      (fun c => if c.1 == cde1 then (cde, combined) else c))
  else .ok data

/-- The data column named by a diagnostic message, when it names one. -/
def msgColumn : Msg → Option String
  | .multipleValuesNotAllowed c => some c
  | .invalidDataType c _ _ => some c
  | .mixedDataTypes c _ _ => some c
  | .stringValuesFound c _ => some c
  | .invalidEnumValues c _ => some c
  | _ => none

/-- The copy step of one (source, destination) pair. -/
def step1Step (now : Nat) (acc : Mtimes × List (String × String))
    (p : String × String) : Mtimes × List (String × String) :=
  if is_newer acc.1 p.1 p.2 then (copyfile acc.1 p.2 now, acc.2 ++ [p]) else acc

/-- The per-column error list computed by `checkEnumColumn` on a column
present in the data. -/
def enumColumnErrors (data_file : String) (multi : List String)
    (column : String) (enum_values vals : List String) : List ErrorRec :=
  let column_values := (uniqueList vals).filter (fun v => v != "")
  let column_values :=
    if multi.contains column then expand_column_values column_values
    else column_values
  let mismatches := column_values.filter (fun v => !enum_values.contains v)
  if mismatches.length > 0 then
    [append_error (Msg.invalidEnumValues column mismatches) data_file]
  else []

/-! ## Theorems for the behavioral claims -/

theorem matchEnumTail_length_le (rest : List Char) (label : String)
    (rem : List Char) (h : matchEnumTail rest = some (label, rem)) :
    rem.length ≤ rest.length := by
  unfold matchEnumTail at h
  dsimp only at h
  split at h
  · exact absurd h (by simp)
  · simp only [Option.some.injEq, Prod.mk.injEq] at h
    rw [← h.2, List.length_drop]
    omega

theorem length_takeWhile_le_self {α : Type} (p : α → Bool) :
    ∀ (l : List α), (l.takeWhile p).length ≤ l.length := by
  intro l
  induction l with
  | nil => simp
  | cons a t ih =>
    rw [List.takeWhile_cons]
    split
    · simpa using ih
    · simp

theorem tryMatchEnum_length_lt (isCode : Char → Bool) (s : List Char)
    (code label : String) (rem : List Char)
    (h : tryMatchEnum isCode s = some (code, label, rem)) :
    rem.length < s.length := by
  unfold tryMatchEnum at h
  dsimp only at h
  split at h
  · exact absurd h (by simp)
  next hrun =>
    split at h
    next rest hdrop =>
      split at h
      next lab remaining hmt =>
        simp only [Option.some.injEq, Prod.mk.injEq] at h
        have hle := matchEnumTail_length_le rest lab remaining hmt
        have hd : (s.drop (s.takeWhile isCode).length).length = rest.length + 1 := by
          rw [hdrop]; simp
        rw [List.length_drop] at hd
        have htw : (s.takeWhile isCode).length ≥ 1 := by
          cases heq : s.takeWhile isCode with
          | nil => rw [heq] at hrun; simp at hrun
          | cons a l => simp [heq]
        have htw2 : (s.takeWhile isCode).length ≤ s.length :=
          length_takeWhile_le_self isCode s
        have hrem : rem.length = remaining.length := by rw [← h.2.2]
        omega
      next => exact absurd h (by simp)
    next => exact absurd h (by simp)

theorem scanCodedEnumsFuel_congr (isCode : Char → Bool) :
    ∀ (f1 f2 : Nat) (s : List Char), s.length < f1 → s.length < f2 →
      scanCodedEnumsFuel isCode f1 s = scanCodedEnumsFuel isCode f2 s := by
  intro f1
  induction f1 with
  | zero => intro f2 s h1 _; omega
  | succ n ih =>
    intro f2 s h1 h2
    match f2 with
    | 0 => omega
    | m + 1 =>
      simp only [scanCodedEnumsFuel]
      cases hm : tryMatchEnum isCode s with
      | some triple =>
        obtain ⟨code, label, rem⟩ := triple
        have hlt := tryMatchEnum_length_lt isCode s code label rem hm
        simp only []
        rw [ih m rem (by omega) (by omega)]
      | none =>
        cases s with
        | nil => rfl
        | cons c rest =>
          simp only []
          exact ih m rest (by simp at h1 ⊢; omega) (by simp at h2 ⊢; omega)


/-- C3: `get_enum_values` tries the integer-coded, letter-coded, and
freeform pipe-delimited grammars in order with first match winning, and
returns the codes as strings: `"1, Male | 2, Female"` yields
`["1", "2"]`, `"AL, Alabama | AK, Alaska"` yields `["AL", "AK"]`, and
`"aptamer | antibody"` yields `["aptamer", "antibody"]`.  The last four
conjuncts witness the precedence order on these very inputs: the freeform
grammar also matches both coded examples and the letter-coded grammar
does not match the integer-coded example, yet the first matching
grammar's codes are returned. -/
theorem get_enum_values_three_grammars :
    get_enum_values "1, Male | 2, Female" = .ok ["1", "2"]
    ∧ get_enum_values "AL, Alabama | AK, Alaska" = .ok ["AL", "AK"]
    ∧ get_enum_values "aptamer | antibody" = .ok ["aptamer", "antibody"]
    ∧ parse_value_enums "1, Male | 2, Female" ≠ []
    ∧ parse_value_enums "AL, Alabama | AK, Alaska" ≠ []
    ∧ parse_string_enums "1, Male | 2, Female" = []
    ∧ parse_integer_enums "AL, Alabama | AK, Alaska" = [] :=
  ⟨by rfl, by rfl, by rfl, by decide, by decide, by rfl, by rfl⟩

/-- C4: for every nonempty choices field matched by none of the three
enumeration grammars, `get_enum_values` raises `ValueError` (modelled as
`Except.error`) instead of returning a value; no caller of
`get_allowed_values`/`check_enums` catches it, so the run aborts. -/
theorem get_enum_values_unparseable_raises (enum : String)
    (hne : enum ≠ "")
    (hint : parse_integer_enums enum = [])
    (hstr : parse_string_enums enum = [])
    (hval : parse_value_enums enum = []) :
    get_enum_values enum =
      .error ("Could not parse enum values for the input: " ++ enum) := by
  simp [get_enum_values, hint, hstr, hval]

/-- Witness for C4 at the nonempty whitespace-only choices field. -/
theorem get_enum_values_unparseable_raises_witness :
    get_enum_values " " =
      .error ("Could not parse enum values for the input: " ++ " ") :=
  get_enum_values_unparseable_raises " " (by decide) (by rfl) (by rfl) (by rfl)

/-- C5 counterexample: the declared type `date`, with a choices field
matching none of the three enumeration forms, is mapped to `string` by
`convert_data_type` — the claim says `date` is left unchanged. -/
theorem convert_data_type_date_counterexample :
    parse_integer_enums "" = [] ∧ parse_string_enums "" = []
    ∧ strContains "" '|' = false ∧ parse_value_enums "" = []
    ∧ convert_data_type "date" "" = "string"
    ∧ convert_data_type "time" "" = "string"
    ∧ "string" ≠ "date" :=
  ⟨by rfl, by rfl, by rfl, by rfl, by rfl, by rfl, by decide⟩

/-- C5 (amended): when the choices field matches neither coded grammar
and contains no pipe, `convert_data_type` maps a declared nominal type in
{text, list, url, date, time, sequence, category, yesno, radio, dropdown,
checkbox, zipcode} to `string` — the set includes `date` and `time` —
and leaves all other declared types, including `timezone`, `integer` and
`float`, unchanged. -/
theorem convert_data_type_nominal_mapping (data_type enum : String)
    (hint : parse_integer_enums enum = [])
    (hstr : parse_string_enums enum = [])
    (hpipe : strContains enum '|' = false) :
    convert_data_type data_type enum =
      if data_type ∈ ["text", "list", "url", "date", "time", "sequence",
          "category", "yesno", "radio", "dropdown", "checkbox", "zipcode"]
      then "string" else data_type := by
  simp [convert_data_type, hint, hstr, hpipe]

/-- Witness for C5 (amended) at the unchanged type `timezone`. -/
theorem convert_data_type_nominal_mapping_witness :
    convert_data_type "timezone" "" =
      if "timezone" ∈ ["text", "list", "url", "date", "time", "sequence",
          "category", "yesno", "radio", "dropdown", "checkbox", "zipcode"]
      then "string" else "timezone" :=
  convert_data_type_nominal_mapping "timezone" "" (by rfl) (by rfl) (by rfl)

/-- C8: `final_consistency_check` emits an ERROR naming the origcopy
directory exactly when the origcopy count is not a multiple of 3 or is
below the preorigcopy count, and an ERROR naming the transformcopy
directory exactly when the transformcopy count is not a multiple of 3;
9/9/9 files pass, and 6 origcopy files against 9 preorigcopy files fail
although 6 is divisible by 3. -/
theorem final_consistency_check_spec :
    (∀ (od td : String) (pre orig trans : Nat),
      (final_consistency_check od td pre orig trans).1 =
        (if orig % 3 ≠ 0 ∨ orig < pre then
          [⟨Severity.ERROR, od ++ " directory", Msg.invalidOrigcopyCount orig pre⟩]
        else [])
        ++ (if trans % 3 ≠ 0 then
          [⟨Severity.ERROR, td ++ " directory", Msg.invalidTransformcopyCount trans⟩]
        else []))
    ∧ (final_consistency_check "origcopy" "transformcopy" 9 9 9).1 = []
    ∧ (final_consistency_check "origcopy" "transformcopy" 9 6 9).1 =
        [⟨Severity.ERROR, "origcopy directory", Msg.invalidOrigcopyCount 6 9⟩] := by
  refine ⟨fun od td pre orig trans => ?_, by rfl, by rfl⟩
  simp only [final_consistency_check, append_error]
  by_cases h1 : orig % 3 ≠ 0 ∨ orig < pre
  · rw [if_pos h1]
    have hb : (orig % 3 != 0 || decide (orig < pre)) = true := by
      rcases h1 with h | h
      · simp [h]
      · simp [h]
    simp only [hb]
    by_cases h2 : trans % 3 ≠ 0
    · rw [if_pos h2]; simp [h2]
    · rw [if_neg h2]
      have : trans % 3 = 0 := by omega
      simp [this]
  · rw [if_neg h1]
    push_neg at h1
    have hb : (orig % 3 != 0 || decide (orig < pre)) = false := by
      simp [h1.1]; omega
    simp only [hb]
    by_cases h2 : trans % 3 ≠ 0
    · rw [if_pos h2]; simp [h2]
    · rw [if_neg h2]
      have : trans % 3 = 0 := by omega
      simp [this]

/-- If `mapM` over `Except` succeeds, it succeeded on every element. -/
theorem mapM_ok_mem {α β ε : Type} (f : α → Except ε β) (l : List α)
    (r : List β) (h : l.mapM f = .ok r) :
    ∀ x ∈ l, ∃ y, f x = .ok y := by
  induction l generalizing r with
  | nil => intro x hx; exact absurd hx (by simp)
  | cons a rest ih =>
    intro x hx
    rw [List.mapM_cons] at h
    rcases hfa : f a with e | b
    · rw [hfa] at h
      exact Except.noConfusion h
    · rw [hfa] at h
      rcases hrest : rest.mapM f with e | bs
      · rw [hrest] at h
        exact Except.noConfusion h
      · rcases List.mem_cons.mp hx with rfl | hx'
        · exact ⟨b, hfa⟩
        · exact ih bs hrest x hx'

/-- Membership in a concatenation searches both halves. -/
theorem strContains_append (s t : String) (c : Char) :
    strContains (s ++ t) c = (strContains s c || strContains t c) := by
  simp only [strContains]
  show (s.toList ++ t.toList).contains c = _
  simp [List.elem_iff, Bool.or_eq_true, List.mem_append]

/-- No key of `YES_NO_MAPPINGS` contains the character 2, so any
composite key containing it misses the dictionary. -/
theorem lookup_none_of_contains (l : List (String × String)) (k : String)
    (hl : ∀ p ∈ l, strContains p.1 '2' = false)
    (hk : strContains k '2' = true) : l.lookup k = none := by
  induction l with
  | nil => rfl
  | cons p rest ih =>
    have hp := hl p (by simp)
    have hne : (k == p.1) = false := by
      by_cases h : k = p.1
      · subst h; rw [hk] at hp; exact absurd hp (by simp)
      · exact beq_false_of_ne h
    simp only [List.lookup, hne]
    exact ih (fun q hq => hl q (by simp [hq]))

/-- C10 counterexample: the value `"11"` lies outside `{"", "0", "1"}`,
yet `yes_no_combiner` (and hence `combine_yes_no_cdes` on a table whose
row holds `"11"` paired with a blank) succeeds instead of raising
`KeyError` — the claim asserts a raise for every value outside the set. -/
theorem yes_no_combiner_counterexample :
    "11" ∉ ["", "0", "1"]
    ∧ yes_no_combiner "11" "" = .ok "1"
    ∧ combine_yes_no_cdes
        [("nih_fever_chills1", ["11"]), ("nih_fever_chills2", [""])]
        "nih_fever_chills" = .ok [("nih_fever_chills", ["1"])] :=
  ⟨by decide, by rfl, by rfl⟩

/-- C10 (amended): `yes_no_combiner` is total on values in
`{"", "0", "1"}` for both columns, and every value containing the
character 2 — in particular the code `"2"` documented in the adjacent
comment as the no answer — makes the lookup raise an unhandled
`KeyError`, both at the combiner and through `combine_yes_no_cdes` on a
table containing both columns of a combined pair; but totality does not
confine the values to `{"", "0", "1"}` (see the counterexample). -/
theorem yes_no_combiner_partiality :
    (∀ c1 c2 : String, c1 ∈ ["", "0", "1"] → c2 ∈ ["", "0", "1"] →
      ∃ v, yes_no_combiner c1 c2 = .ok v)
    ∧ (∀ c1 c2 : String,
        strContains c1 '2' = true ∨ strContains c2 '2' = true →
        yes_no_combiner c1 c2 =
          .error ("KeyError: " ++ c1 ++ c2))
    ∧ (∀ (data : DataTable) (cde : String) (v1 v2 : List String),
        lookupColumn data (cde ++ "1") = some v1 →
        lookupColumn data (cde ++ "2") = some v2 →
        (∃ p ∈ v1.zip v2,
          strContains p.1 '2' = true ∨ strContains p.2 '2' = true) →
        ∃ m, combine_yes_no_cdes data cde = .error m) := by
  refine ⟨?_, ?_, ?_⟩
  · intro c1 c2 h1 h2
    simp only [List.mem_cons, List.not_mem_nil, or_false] at h1 h2
    rcases h1 with rfl | rfl | rfl <;> rcases h2 with rfl | rfl | rfl <;>
      exact ⟨_, rfl⟩
  · intro c1 c2 h
    have hkey : strContains (c1 ++ c2) '2' = true := by
      rw [strContains_append]
      rcases h with h | h <;> simp [h]
    unfold yes_no_combiner
    rw [lookup_none_of_contains YES_NO_MAPPINGS (c1 ++ c2) (by decide) hkey]
  · intro data cde v1 v2 h1 h2 ⟨p, hp, hc⟩
    have herr : yes_no_combiner p.1 p.2 =
        .error ("KeyError: " ++ p.1 ++ p.2) := by
      unfold yes_no_combiner
      have hkey : strContains (p.1 ++ p.2) '2' = true := by
        rw [strContains_append]
        rcases hc with h | h <;> simp [h]
      rw [lookup_none_of_contains YES_NO_MAPPINGS (p.1 ++ p.2) (by decide) hkey]
    unfold combine_yes_no_cdes
    dsimp only
    rw [h1, h2]
    simp only [Option.isSome_some, Option.getD_some, Bool.not_true, Bool.and_false,
      Bool.and_self, Bool.false_eq_true, if_false, if_true]
    rcases hmap : (v1.zip v2).mapM (fun q => yes_no_combiner q.1 q.2) with e | r
    · refine ⟨e, ?_⟩
      rw [hmap]
      rfl
    · exfalso
      obtain ⟨y, hy⟩ := mapM_ok_mem _ _ _ hmap p hp
      rw [herr] at hy
      exact Except.noConfusion hy

/-- Witness for C10 (amended): an in-range pair succeeds; a `"2"` raises
`KeyError` both at the combiner and through `combine_yes_no_cdes`. -/
theorem yes_no_combiner_partiality_witness :
    (∃ v, yes_no_combiner "0" "1" = .ok v)
    ∧ yes_no_combiner "2" "" = .error ("KeyError: " ++ "2" ++ "")
    ∧ ∃ m, combine_yes_no_cdes [("f1", ["2"]), ("f2", ["1"])] "f" = .error m :=
  ⟨yes_no_combiner_partiality.1 "0" "1" (by decide) (by decide),
   yes_no_combiner_partiality.2.1 "2" "" (Or.inl (by rfl)),
   yes_no_combiner_partiality.2.2 [("f1", ["2"]), ("f2", ["1"])] "f" ["2"] ["1"]
     (by rfl) (by rfl) ⟨("2", "1"), by decide, Or.inl (by rfl)⟩⟩

/-- C6: `determine_type` maps the empty string to `blank`; a recognized
null spelling is returned as itself, never coerced (in particular `"NaN"`
is not `float`); any other pipe-free value is tried as integer, then
float, else `string`; a value containing the pipe is split, each
sub-value classified independently, and the type set collapsed with
integer-and-float to `float` and any remaining plurality to `string`. -/
theorem determine_type_classification :
    determine_type "" = "blank"
    ∧ (∀ v ∈ NULL_VALUES, determine_type v = v)
    ∧ determine_type "NaN" ≠ "float"
    ∧ (∀ v : String, strContains v '|' = false → v ≠ "" → v ∉ NULL_VALUES →
        determine_type v =
          if pyIntParses v then "integer"
          else if pyFloatParses v then "float" else "string")
    ∧ (∀ v : String, strContains v '|' = true →
        determine_type v = collapseTypes ((pySplitPipe v).map determineTypeScalar))
    ∧ (∀ ts : List String,
        uniqueList ts = ["integer", "float"] ∨ uniqueList ts = ["float", "integer"] →
        collapseTypes ts = "float")
    ∧ (∀ ts : List String, 2 ≤ (uniqueList ts).length →
        ¬((uniqueList ts).length = 2 ∧ "integer" ∈ uniqueList ts
          ∧ "float" ∈ uniqueList ts) →
        collapseTypes ts = "string") := by
  refine ⟨by rfl, by decide, by decide, ?_, ?_, ?_, ?_⟩
  · intro v hpipe hne hnull
    have hb : (v == "") = false := beq_false_of_ne hne
    have hn : NULL_VALUES.contains v = false := by
      rcases h : NULL_VALUES.contains v with _ | _
      · rfl
      · exact absurd (List.elem_iff.mp h) hnull
    simp [determine_type, hpipe, determineTypeScalar, hb, hn, hnull]
  · intro v hpipe
    simp [determine_type, hpipe]
  · intro ts h
    rcases h with h | h <;>
      simp [collapseTypes, h]
  · intro ts hlen hnot
    have hcond : ((uniqueList ts).length == 2 && (uniqueList ts).contains "integer"
        && (uniqueList ts).contains "float") = false := by
      rcases h2 : (uniqueList ts).length == 2 with _ | _
      · simp
      · rcases hi : (uniqueList ts).contains "integer" with _ | _
        · simp
        · rcases hf : (uniqueList ts).contains "float" with _ | _
          · simp
          · exact absurd ⟨by simpa using h2, List.elem_iff.mp hi,
              List.elem_iff.mp hf⟩ hnot
    simp only [collapseTypes, hcond, if_false, Bool.false_eq_true]
    rw [if_pos]
    omega

/-- Witness for C6 at a value that is neither blank, null, piped, nor
numeric. -/
theorem determine_type_classification_witness :
    determine_type "x7" =
      if pyIntParses "x7" then "integer"
      else if pyFloatParses "x7" then "float" else "string" :=
  determine_type_classification.2.2.2.1 "x7" (by rfl) (by decide) (by decide)

/-! ### C9: the copy-in stage -/


theorem step1Run_eq_foldl (mtimes : Mtimes) (pairs : List (String × String))
    (now : Nat) :
    step1Run mtimes pairs now = pairs.foldl (step1Step now) (mtimes, []) := rfl

/-- A copy leaves every other path untouched. -/
theorem copyfile_ne (m : Mtimes) (dst : String) (now : Nat) (f : String)
    (h : f ≠ dst) : copyfile m dst now f = m f := by
  unfold copyfile
  rw [if_neg (by simpa using h)]

/-- A copy stamps its destination with the copy time. -/
theorem copyfile_self (m : Mtimes) (dst : String) (now : Nat) :
    copyfile m dst now dst = some now := by
  unfold copyfile
  simp

/-- A path that is no pair's destination keeps its timestamp across a
run. -/
theorem step1_foldl_src_stable (now : Nat) :
    ∀ (pairs : List (String × String)) (acc : Mtimes × List (String × String))
      (f : String), (∀ q ∈ pairs, q.2 ≠ f) →
      (pairs.foldl (step1Step now) acc).1 f = acc.1 f := by
  intro pairs
  induction pairs with
  | nil => intro acc f _; rfl
  | cons a l ih =>
    intro acc f hf
    rw [List.foldl_cons]
    rw [ih _ f (fun q hq => hf q (by simp [hq]))]
    unfold step1Step
    split
    · exact copyfile_ne acc.1 a.2 now f (fun h => hf a (by simp) h.symm)
    · rfl

/-- An existing timestamp survives a run as itself or as the run's
wall-clock stamp. -/
theorem step1_foldl_dst_ge (now : Nat) :
    ∀ (pairs : List (String × String)) (acc : Mtimes × List (String × String))
      (f : String) (v : Nat), acc.1 f = some v →
      ∃ w, (pairs.foldl (step1Step now) acc).1 f = some w ∧ (w = v ∨ w = now) := by
  intro pairs
  induction pairs with
  | nil => intro acc f v hv; exact ⟨v, hv, Or.inl rfl⟩
  | cons a l ih =>
    intro acc f v hv
    rw [List.foldl_cons]
    unfold step1Step
    split
    · by_cases hf : f = a.2
      · subst hf
        obtain ⟨w, hw, hor⟩ := ih (copyfile acc.1 a.2 now, acc.2 ++ [a]) a.2 now
          (copyfile_self acc.1 a.2 now)
        exact ⟨w, hw, by rcases hor with h | h <;> simp [h]⟩
      · obtain ⟨w, hw, hor⟩ := ih (copyfile acc.1 a.2 now, acc.2 ++ [a]) f v
          (show copyfile acc.1 a.2 now f = some v by
            rw [copyfile_ne acc.1 a.2 now f hf]; exact hv)
        exact ⟨w, hw, hor⟩
    · exact ih acc f v hv

/-- After a run whose wall-clock stamp exceeds every source timestamp and
whose sources are no destinations, every destination exists and is at
least as new as its source. -/
theorem step1_foldl_dst_good (now : Nat) :
    ∀ (pairs : List (String × String)) (m0 : Mtimes)
      (acc : List (String × String)),
      (∀ p ∈ pairs, ∃ ts, m0 p.1 = some ts ∧ ts < now) →
      (∀ p ∈ pairs, ∀ q ∈ pairs, p.1 ≠ q.2) →
      ∀ p ∈ pairs, ∃ ts v, m0 p.1 = some ts
        ∧ (pairs.foldl (step1Step now) (m0, acc)).1 p.2 = some v ∧ ts ≤ v := by
  intro pairs
  induction pairs with
  | nil => intro m0 acc _ _ p hp; exact absurd hp (by simp)
  | cons a l ih =>
    intro m0 acc hsrc hdisj p hp
    obtain ⟨ts, hts, htslt⟩ := hsrc p hp
    rcases List.mem_cons.mp hp with rfl | hpl
    · refine ⟨ts, ?_⟩
      rw [List.foldl_cons]
      unfold step1Step
      split
      next hnew =>
        obtain ⟨w, hw, hor⟩ := step1_foldl_dst_ge now l
          (copyfile m0 p.2 now, acc ++ [p]) p.2 now (copyfile_self m0 p.2 now)
        refine ⟨w, hts, hw, ?_⟩
        rcases hor with h | h <;> omega
      next hnew =>
        have hold : ∃ v, m0 p.2 = some v ∧ ts ≤ v := by
          unfold is_newer at hnew
          dsimp only at hnew
          rcases h2 : m0 p.2 with _ | v
          · rw [h2] at hnew
            simp at hnew
          · rw [h2, hts] at hnew
            simp at hnew
            exact ⟨v, rfl, by omega⟩
        obtain ⟨v, hv, hle⟩ := hold
        obtain ⟨w, hw, hor⟩ := step1_foldl_dst_ge now l (m0, acc) p.2 v hv
        refine ⟨w, hts, hw, ?_⟩
        rcases hor with h | h <;> omega
    · rw [List.foldl_cons]
      have hsrc1 : a.2 ≠ p.1 := (hdisj p hp a (by simp)).symm
      unfold step1Step
      split
      · have hcp : copyfile m0 a.2 now p.1 = m0 p.1 :=
          copyfile_ne m0 a.2 now p.1 (fun h => hsrc1 h.symm)
        obtain ⟨ts2, v, hts2, hv, hle⟩ := ih (copyfile m0 a.2 now) (acc ++ [a])
          (fun q hq => by
            obtain ⟨tq, htq, hlt⟩ := hsrc q (by simp [hq])
            have hq2 : copyfile m0 a.2 now q.1 = m0 q.1 := by
              refine copyfile_ne m0 a.2 now q.1 (fun h => ?_)
              exact (hdisj q (by simp [hq]) a (by simp)).symm h.symm
            exact ⟨tq, by rw [hq2]; exact htq, hlt⟩)
          (fun q hq r hr => hdisj q (by simp [hq]) r (by simp [hr])) p hpl
        rw [hcp] at hts2
        exact ⟨ts2, v, hts2, hv, hle⟩
      · exact ih m0 acc
          (fun q hq => hsrc q (by simp [hq]))
          (fun q hq r hr => hdisj q (by simp [hq]) r (by simp [hr])) p hpl

/-- A run in which no pair's copy condition holds copies nothing and
leaves the file system unchanged. -/
theorem step1_no_copy (now : Nat) :
    ∀ (pairs : List (String × String)) (m : Mtimes),
      (∀ p ∈ pairs, is_newer m p.1 p.2 = false) →
      step1Run m pairs now = (m, []) := by
  have general : ∀ (l : List (String × String)) (m : Mtimes)
      (acc : List (String × String)),
      (∀ p ∈ l, is_newer m p.1 p.2 = false) →
      l.foldl (step1Step now) (m, acc) = (m, acc) := by
    intro l
    induction l with
    | nil => intro m acc _; rfl
    | cons a t ih =>
      intro m acc h
      rw [List.foldl_cons]
      unfold step1Step
      rw [show ((m, acc) : Mtimes × List (String × String)).1 = m from rfl,
        h a (by simp)]
      simp only [Bool.false_eq_true, if_false]
      exact ih m acc (fun p hp => h p (by simp [hp]))
  intro pairs m h
  exact general pairs m [] h

/-- C9: in the copy-in stage a file is copied exactly when its
destination is absent or its source is strictly newer (`is_newer`), and
the stage is idempotent: a second run over the same pairs, with no source
changed since before the first run and no source being a destination,
copies nothing and leaves the file system unchanged. -/
theorem step1_copy_condition_and_idempotent :
    (∀ (m : Mtimes) (f1 f2 : String) (t1 : Nat), m f1 = some t1 →
      (is_newer m f1 f2 = true ↔ m f2 = none ∨ ∃ t2, m f2 = some t2 ∧ t1 > t2))
    ∧ ∀ (m : Mtimes) (pairs : List (String × String)) (now1 now2 : Nat),
      (∀ p ∈ pairs, ∃ ts, m p.1 = some ts ∧ ts < now1) →
      (∀ p ∈ pairs, ∀ q ∈ pairs, p.1 ≠ q.2) →
      step1Run (step1Run m pairs now1).1 pairs now2 =
        ((step1Run m pairs now1).1, []) := by
  constructor
  · intro m f1 f2 t1 h1
    unfold is_newer
    rcases h2 : m f2 with _ | t2
    · simp
    · rw [h1]
      simp only [decide_eq_true_eq]
      constructor
      · intro h; exact Or.inr ⟨t2, rfl, h⟩
      · rintro (h | ⟨t2x, ht2x, hgt⟩)
        · exact Option.noConfusion h
        · cases ht2x
          exact hgt
  · intro m pairs now1 now2 hsrc hdisj
    apply step1_no_copy
    intro p hp
    have hstable : (step1Run m pairs now1).1 p.1 = m p.1 := by
      rw [step1Run_eq_foldl]
      exact step1_foldl_src_stable now1 pairs (m, []) p.1
        (fun q hq => (hdisj p hp q hq).symm)
    obtain ⟨ts, v, hts, hv, hle⟩ := step1_foldl_dst_good now1 pairs m [] hsrc hdisj p hp
    unfold is_newer
    rw [step1Run_eq_foldl, hv]
    rw [show (pairs.foldl (step1Step now1) (m, [])).1 p.1 = m p.1 from
      step1Run_eq_foldl m pairs now1 ▸ hstable, hts]
    simp only [decide_eq_false_iff_not]
    omega

/-- Witness for C9 on a one-pair file system: source `s` stamped 5,
copied at time 10, rerun at time 20. -/
theorem step1_copy_condition_and_idempotent_witness :
    step1Run
      (step1Run (fun f => if f == "s" then some 5 else none) [("s", "d")] 10).1
      [("s", "d")] 20 =
    ((step1Run (fun f => if f == "s" then some 5 else none) [("s", "d")] 10).1,
      []) :=
  step1_copy_condition_and_idempotent.2
    (fun f => if f == "s" then some 5 else none) [("s", "d")] 10 20
    (by intro p hp; simp at hp; subst hp; exact ⟨5, rfl, by omega⟩)
    (by intro p hp q hq; simp at hp hq; subst hp; subst hq; decide)

/-- Membership in the deduplicated list. -/
theorem uniqueListAux_mem {α} [BEq α] [LawfulBEq α] (x : α) :
    ∀ (l seen : List α), x ∈ uniqueListAux seen l ↔ x ∈ l ∧ x ∉ seen := by
  intro l
  induction l with
  | nil => intro seen; simp [uniqueListAux]
  | cons a rest ih =>
    intro seen
    unfold uniqueListAux
    split
    next hseen =>
      rw [ih seen]
      constructor
      · rintro ⟨hx, hs⟩; exact ⟨by simp [hx], hs⟩
      · rintro ⟨hx, hs⟩
        rcases List.mem_cons.mp hx with rfl | hx'
        · exact absurd (List.elem_iff.mp hseen) hs
        · exact ⟨hx', hs⟩
    next hseen =>
      simp only [List.mem_cons, ih (a :: seen)]
      constructor
      · rintro (rfl | ⟨hx, hs⟩)
        · refine ⟨Or.inl rfl, fun hmem => ?_⟩
          exact absurd (List.elem_iff.mpr hmem) (by simpa using hseen)
        · exact ⟨Or.inr hx, fun hmem => hs (by simp [hmem])⟩
      · rintro ⟨hx, hs⟩
        rcases hx with rfl | hx'
        · exact Or.inl rfl
        · by_cases hxa : x = a
          · exact Or.inl hxa
          · refine Or.inr ⟨hx', fun hmem => ?_⟩
            rcases hmem with rfl | hm
            · exact hxa rfl
            · exact hs hm

/-- Deduplication preserves membership. -/
theorem uniqueList_mem {α} [BEq α] [LawfulBEq α] (x : α) (l : List α) :
    x ∈ uniqueList l ↔ x ∈ l := by
  rw [uniqueList, uniqueListAux_mem]
  simp

/-- The deduplicated list has no duplicates. -/
theorem uniqueListAux_nodup {α} [BEq α] [LawfulBEq α] :
    ∀ (l seen : List α), (uniqueListAux seen l).Nodup := by
  intro l
  induction l with
  | nil => intro seen; simp [uniqueListAux]
  | cons a rest ih =>
    intro seen
    unfold uniqueListAux
    split
    · exact ih seen
    · refine List.nodup_cons.mpr ⟨fun hmem => ?_, ih (a :: seen)⟩
      exact ((uniqueListAux_mem a rest (a :: seen)).mp hmem).2 (by simp)

theorem uniqueList_nodup {α} [BEq α] [LawfulBEq α] (l : List α) :
    (uniqueList l).Nodup := uniqueListAux_nodup l []
/-- Searching an append when the first part has no hit. -/
theorem find?_append_none {α} (l1 l2 : List α) (p : α → Bool)
    (h : l1.find? p = none) : (l1 ++ l2).find? p = l2.find? p := by
  induction l1 with
  | nil => rfl
  | cons a t ih =>
    cases hpa : p a with
    | true =>
      rw [List.find?_cons_of_pos _ hpa] at h
      exact Option.noConfusion h
    | false =>
      rw [List.find?_cons_of_neg _ (by simp [hpa])] at h
      rw [List.cons_append, List.find?_cons_of_neg _ (by simp [hpa])]
      exact ih h

/-- Searching an append when the first part has a hit. -/
theorem find?_append_some {α} (l1 l2 : List α) (p : α → Bool) (r : α)
    (h : l1.find? p = some r) : (l1 ++ l2).find? p = some r := by
  induction l1 with
  | nil => exact Option.noConfusion h
  | cons a t ih =>
    cases hpa : p a with
    | true =>
      rw [List.find?_cons_of_pos _ hpa] at h
      rw [List.cons_append, List.find?_cons_of_pos _ hpa]
      exact h
    | false =>
      rw [List.find?_cons_of_neg _ (by simp [hpa])] at h
      rw [List.cons_append, List.find?_cons_of_neg _ (by simp [hpa])]
      exact ih h

/-- Keep-first deduplication preserves the first hit of an
identifier search. -/
theorem dropDupByNameAux_find (c : String) :
    ∀ (l : List DictRow) (seen : List String), c ∉ seen →
      (dropDupByNameAux seen l).find? (fun r => r.varName == c) =
        l.find? (fun r => r.varName == c) := by
  intro l
  induction l with
  | nil => intro seen _; rfl
  | cons r rest ih =>
    intro seen hc
    unfold dropDupByNameAux
    split
    next hseen =>
      have hne : (r.varName == c) = false := by
        refine beq_false_of_ne (fun h => ?_)
        exact hc (h ▸ List.elem_iff.mp hseen)
      rw [List.find?_cons_of_neg _ (by simp [hne])]
      exact ih seen hc
    next hseen =>
      cases hrc : (r.varName == c) with
      | true =>
        have h1 : ∀ (tail : List DictRow),
            (r :: tail).find? (fun x => x.varName == c) = some r := by
          intro tail
          exact List.find?_cons_of_pos tail hrc
        rw [h1, h1]
      | false =>
        rw [List.find?_cons_of_neg _ (by simp [hrc]), List.find?_cons_of_neg _ (by simp [hrc])]
        refine ih (r.varName :: seen) (fun h => ?_)
        rcases List.mem_cons.mp h with rfl | hm
        · simp at hrc
        · exact hc hm

theorem dropDupByName_find (c : String) (l : List DictRow) :
    (dropDupByName l).find? (fun r => r.varName == c) =
      l.find? (fun r => r.varName == c) :=
  dropDupByNameAux_find c l [] (by simp)

/-- The placeholder block's row for a missing column. -/
theorem find?_placeholder (c : String) :
    ∀ (missing : List String), c ∈ missing →
      (missing.map placeholderRow).find? (fun r => r.varName == c) =
        some (placeholderRow c) := by
  intro missing
  induction missing with
  | nil => intro h; exact absurd h (by simp)
  | cons m rest ih =>
    intro h
    rw [List.map_cons]
    by_cases hmc : m = c
    · subst hmc
      rw [List.find?_cons_of_pos]
      simp [placeholderRow]
    · rw [List.find?_cons_of_neg]
      · refine ih ?_
        rcases List.mem_cons.mp h with rfl | hm
        · exact absurd rfl hmc
        · exact hm
      · simp [placeholderRow]
        exact fun hx => absurd hx hmc

/-- A `filterMap` whose function always hits maps back onto the key
list. -/
theorem filterMap_map_of_all_some {α β γ : Type} (g : β → γ) (gl : α → γ)
    (f : α → Option β) :
    ∀ (l : List α), (∀ a ∈ l, ∃ b, f a = some b ∧ g b = gl a) →
      (l.filterMap f).map g = l.map gl := by
  intro l
  induction l with
  | nil => intro _; rfl
  | cons a t ih =>
    intro h
    obtain ⟨b, hb, hgb⟩ := h a (by simp)
    rw [List.filterMap_cons, hb, List.map_cons, List.map_cons, hgb,
      ih (fun x hx => h x (by simp [hx]))]
/-- No row of a keyed `filterMap` carries an absent key. -/
theorem filterMap_filter_none (f : String → Option DictRow) (c : String) :
    ∀ (l : List String),
      (∀ a ∈ l, ∃ b, f a = some b ∧ b.varName = a) → c ∉ l →
      (l.filterMap f).filter (fun r => r.varName == c) = [] := by
  intro l
  induction l with
  | nil => intro _ _; rfl
  | cons a t ih =>
    intro hall hc
    obtain ⟨b, hb, hvb⟩ := hall a (by simp)
    rw [List.filterMap_cons, hb, List.filter_cons]
    have : (b.varName == c) = false := by
      refine beq_false_of_ne (fun h => ?_)
      exact hc (by simp [← hvb, h])
    rw [this]
    simp only [Bool.false_eq_true, if_false]
    exact ih (fun x hx => hall x (by simp [hx])) (fun h => hc (by simp [h]))

/-- The unique row of a keyed `filterMap` carrying a present key. -/
theorem filterMap_filter_key (f : String → Option DictRow) (c : String)
    (bc : DictRow) :
    ∀ (l : List String), l.Nodup →
      (∀ a ∈ l, ∃ b, f a = some b ∧ b.varName = a) →
      c ∈ l → f c = some bc →
      (l.filterMap f).filter (fun r => r.varName == c) = [bc] := by
  intro l
  induction l with
  | nil => intro _ _ h _; exact absurd h (by simp)
  | cons a t ih =>
    intro hnd hall hc hfc
    obtain ⟨b, hb, hvb⟩ := hall a (by simp)
    rw [List.filterMap_cons, hb, List.filter_cons]
    by_cases hac : a = c
    · subst hac
      rw [hfc] at hb
      obtain rfl : bc = b := Option.some_inj.mp hb
      have hpos : (bc.varName == a) = true := by simp [hvb]
      rw [hpos]
      simp only [if_true]
      rw [filterMap_filter_none f a t (fun x hx => hall x (by simp [hx]))
        (List.nodup_cons.mp hnd).1]
    · have hne : (b.varName == c) = false := by
        refine beq_false_of_ne (fun h => ?_)
        exact hac (hvb ▸ h)
      rw [hne]
      simp only [Bool.false_eq_true, if_false]
      refine ih (List.nodup_cons.mp hnd).2 (fun x hx => hall x (by simp [hx]))
        ?_ hfc
      rcases List.mem_cons.mp hc with rfl | hm
      · exact absurd rfl hac
      · exact hm
/-- A data column that is not missing has a matched dictionary row. -/
theorem matched_covers (dataCols : List String)
    (dictRows harmonizedRows : List DictRow) (c : String)
    (hc : c ∈ dataCols)
    (hnm : c ∉ missingDataElementsOf dataCols dictRows harmonizedRows) :
    ∃ r ∈ matchedDictionary dataCols dictRows harmonizedRows,
      (r.varName == c) = true := by
  by_contra hno
  push_neg at hno
  apply hnm
  rw [missingDataElementsOf, uniqueList_mem, List.mem_filter]
  refine ⟨hc, ?_⟩
  simp only [Bool.not_eq_true']
  rw [List.any_eq_false]
  intro r hr
  simp only [Bool.not_eq_true]
  have := hno r hr
  rcases h : (r.varName == c) with _ | _
  · rfl
  · exact absurd h this

/-- A missing data column has no matched dictionary row. -/
theorem missing_no_row (dataCols : List String)
    (dictRows harmonizedRows : List DictRow) (c : String)
    (hm : c ∈ missingDataElementsOf dataCols dictRows harmonizedRows) :
    (matchedDictionary dataCols dictRows harmonizedRows).find?
      (fun r => r.varName == c) = none := by
  rw [missingDataElementsOf, uniqueList_mem, List.mem_filter] at hm
  rw [List.find?_eq_none]
  intro r hr
  have hany := hm.2
  simp only [Bool.not_eq_true'] at hany
  rw [List.any_eq_false] at hany
  simpa using hany r hr

/-- After placeholders are appended and duplicates dropped, every data
column has a first row, which for a missing column is its placeholder. -/
theorem rowFor_spec (dataCols : List String)
    (dictRows harmonizedRows : List DictRow) (c : String) (hc : c ∈ dataCols) :
    let D := matchedDictionary dataCols dictRows harmonizedRows
    let M := missingDataElementsOf dataCols dictRows harmonizedRows
    ∃ r, (dropDupByName (D ++ M.map placeholderRow)).find?
        (fun x => x.varName == c) = some r
      ∧ r.varName = c ∧ (c ∈ M → r = placeholderRow c) := by
  intro D M
  rw [dropDupByName_find]
  by_cases hm : c ∈ M
  · rw [find?_append_none _ _ _ (missing_no_row dataCols dictRows harmonizedRows c hm)]
    rw [find?_placeholder c M hm]
    exact ⟨placeholderRow c, rfl, rfl, fun _ => rfl⟩
  · obtain ⟨r, hrD, hrc⟩ := matched_covers dataCols dictRows harmonizedRows c hc hm
    have hfind : D.find? (fun x => x.varName == c) ≠ none := by
      intro hnone
      have := List.find?_eq_none.mp hnone r hrD
      simp [hrc] at this
    rcases hf : D.find? (fun x => x.varName == c) with _ | r2
    · exact absurd hf hfind
    · rw [find?_append_some _ _ _ _ hf]
      have hp := List.find?_some hf
      exact ⟨r2, rfl, by simpa using hp, fun hmm => absurd hmm hm⟩
/-- C2 (amended): when some data column has no dictionary row,
`data_dict_matcher_new` appends exactly one ERROR and exactly one WARN
(both listing the missing columns) — not a WARN alone as claimed —
returns a true error flag, appends exactly one placeholder row per
missing column (identifier set, every other attribute empty), and still
performs the final reorder: the written dictionary's identifiers are
exactly the data columns in order. -/
theorem data_dict_matcher_missing_spec (dict_file : String)
    (dataCols : List String) (dictRows harmonizedRows : List DictRow)
    (hnodup : dataCols.Nodup)
    (hmiss : missingDataElementsOf dataCols dictRows harmonizedRows ≠ []) :
    (data_dict_matcher_new dict_file dataCols dictRows harmonizedRows).2.1 =
      [append_error (Msg.missingDataElements
          (missingDataElementsOf dataCols dictRows harmonizedRows)) dict_file,
       append_warning (Msg.addedMissingDataElements
          (missingDataElementsOf dataCols dictRows harmonizedRows)) dict_file]
    ∧ (data_dict_matcher_new dict_file dataCols dictRows harmonizedRows).2.2 = true
    ∧ (∀ c ∈ missingDataElementsOf dataCols dictRows harmonizedRows,
        (data_dict_matcher_new dict_file dataCols dictRows harmonizedRows).1.filter
          (fun r => r.varName == c) = [placeholderRow c])
    ∧ (data_dict_matcher_new dict_file dataCols dictRows harmonizedRows).1.map
        DictRow.varName = dataCols := by
  have hlen : 0 < (missingDataElementsOf dataCols dictRows harmonizedRows).length :=
    List.length_pos.mpr hmiss
  unfold data_dict_matcher_new
  dsimp only
  rw [if_pos hlen]
  refine ⟨rfl, rfl, ?_, ?_⟩
  · intro c hcM
    have hcData : c ∈ dataCols := by
      have := (uniqueList_mem c _).mp hcM
      exact (List.mem_filter.mp this).1
    dsimp only [reorder_data_dictionary]
    have hall : ∀ a ∈ dataCols, ∃ b,
        (dropDupByName (add_missing_data_elements
          (matchedDictionary dataCols dictRows harmonizedRows)
          (missingDataElementsOf dataCols dictRows harmonizedRows))).find?
            (fun x => x.varName == a) = some b ∧ b.varName = a := by
      intro a ha
      obtain ⟨r, hfind, hvn, _⟩ :=
        rowFor_spec dataCols dictRows harmonizedRows a ha
      exact ⟨r, hfind, hvn⟩
    obtain ⟨r, hfind, hvn, hph⟩ :=
      rowFor_spec dataCols dictRows harmonizedRows c hcData
    rw [filterMap_filter_key _ c (placeholderRow c) dataCols hnodup hall hcData]
    rw [← hph hcM]
    exact hfind
  · dsimp only [reorder_data_dictionary]
    have := filterMap_map_of_all_some DictRow.varName id
      (fun c => (dropDupByName (add_missing_data_elements
        (matchedDictionary dataCols dictRows harmonizedRows)
        (missingDataElementsOf dataCols dictRows harmonizedRows))).find?
          (fun x => x.varName == c)) dataCols
      (fun a ha => by
        obtain ⟨r, hfind, hvn, _⟩ :=
          rowFor_spec dataCols dictRows harmonizedRows a ha
        exact ⟨r, hfind, hvn⟩)
    simpa using this

/-- C2 counterexample: a data column absent from the dictionary makes
`data_dict_matcher_new` emit an ERROR in addition to the WARN — the
claim says exactly one WARN and no ERROR. -/
theorem data_dict_matcher_counterexample :
    ((data_dict_matcher_new "dict.csv" ["a"] [] []).2.1.filter
      (fun e => e.severity == Severity.ERROR)).length = 1
    ∧ ((data_dict_matcher_new "dict.csv" ["a"] [] []).2.1.filter
      (fun e => e.severity == Severity.WARN)).length = 1
    ∧ (data_dict_matcher_new "dict.csv" ["a"] [] []).1 = [placeholderRow "a"] :=
  ⟨by rfl, by rfl, by rfl⟩

/-- Witness for C2 (amended) at a one-column table with an empty
dictionary. -/
theorem data_dict_matcher_missing_spec_witness :
    (data_dict_matcher_new "dict.csv" ["a"] [] []).2.1 =
      [append_error (Msg.missingDataElements
          (missingDataElementsOf ["a"] [] [])) "dict.csv",
       append_warning (Msg.addedMissingDataElements
          (missingDataElementsOf ["a"] [] [])) "dict.csv"]
    ∧ (data_dict_matcher_new "dict.csv" ["a"] [] []).2.2 = true
    ∧ (∀ c ∈ missingDataElementsOf ["a"] [] [],
        (data_dict_matcher_new "dict.csv" ["a"] [] []).1.filter
          (fun r => r.varName == c) = [placeholderRow c])
    ∧ (data_dict_matcher_new "dict.csv" ["a"] [] []).1.map
        DictRow.varName = ["a"] :=
  data_dict_matcher_missing_spec "dict.csv" ["a"] [] [] (by simp) (by decide)

/-- A successful `mapM` over `Except` pairs inputs with outputs. -/
theorem mapM_ok_forall₂ {α β ε : Type} (f : α → Except ε β) :
    ∀ (l : List α) (r : List β), l.mapM f = .ok r →
      List.Forall₂ (fun a b => f a = .ok b) l r := by
  intro l
  induction l with
  | nil =>
    intro r h
    rw [List.mapM_nil] at h
    cases h
    exact List.Forall₂.nil
  | cons a t ih =>
    intro r h
    rw [List.mapM_cons] at h
    rcases hfa : f a with e | b
    · rw [hfa] at h; exact Except.noConfusion h
    · rw [hfa] at h
      rcases hrest : t.mapM f with e | bs
      · rw [hrest] at h; exact Except.noConfusion h
      · rw [hrest] at h
        have : Except.ok (ε := ε) (b :: bs) = .ok r := h
        cases this
        exact List.Forall₂.cons hfa (ih bs hrest)

/-- A successful `Except` bind has a successful first stage. -/
theorem except_bind_ok {α β ε : Type} (x : Except ε α) (f : α → Except ε β)
    (r : β) (h : (x >>= f) = .ok r) : ∃ v, x = .ok v ∧ f v = .ok r := by
  rcases hx : x with e | v
  · rw [hx] at h; exact Except.noConfusion h
  · rw [hx] at h; exact ⟨v, rfl, h⟩


/-- Evaluating `checkEnumColumn` on a column present in the data. -/
theorem checkEnumColumn_ok_eq (data_file : String) (data : DataTable)
    (multi : List String) (column : String) (ev vals : List String)
    (hlook : lookupColumn data column = some vals) :
    checkEnumColumn data_file data multi column ev =
      .ok (enumColumnErrors data_file multi column ev vals) := by
  unfold checkEnumColumn
  rw [hlook]
  rfl

/-- Every record of `checkEnumColumn` is an ERROR naming its column. -/
theorem checkEnumColumn_names (data_file : String) (data : DataTable)
    (multi : List String) (column : String) (ev : List String)
    (l : List ErrorRec) (h : checkEnumColumn data_file data multi column ev = .ok l) :
    ∀ e ∈ l, e.severity = Severity.ERROR ∧ msgColumn e.message = some column := by
  unfold checkEnumColumn at h
  rcases hlook : lookupColumn data column with _ | vals
  · rw [hlook] at h; exact Except.noConfusion h
  · rw [hlook] at h
    have hl : l = (let cvs := (uniqueList vals).filter (fun v => v != "")
        let cvs2 := if multi.contains column then expand_column_values cvs else cvs
        let mism := cvs2.filter (fun v => !ev.contains v)
        if mism.length > 0 then
          [append_error (Msg.invalidEnumValues column mism) data_file]
        else []) := by
      cases h
      rfl
    intro e he
    rw [hl] at he
    dsimp only at he
    split at he <;> split at he <;>
      first
        | (rcases List.mem_singleton.mp he with rfl; exact ⟨rfl, rfl⟩)
        | exact absurd he (by simp)
/-- A member of the right list of a `Forall₂` has a related member on
the left. -/
theorem forall₂_mem_right {α β : Type} {R : α → β → Prop} :
    ∀ {l₁ : List α} {l₂ : List β}, List.Forall₂ R l₁ l₂ →
      ∀ b ∈ l₂, ∃ a ∈ l₁, R a b := by
  intro l₁ l₂ h
  induction h with
  | nil => intro b hb; exact absurd hb (by simp)
  | cons hR hrest ih =>
    intro b hb
    rcases List.mem_cons.mp hb with rfl | hb'
    · exact ⟨_, by simp, hR⟩
    · obtain ⟨a, ha, hab⟩ := ih b hb'
      exact ⟨a, by simp [ha], hab⟩

/-- Every record of `check_enums` names one of the enum columns. -/
theorem flatten_names (data_file : String) (data : DataTable)
    (multi : List String) :
    ∀ (allowed : List (String × List String)) (lists : List (List ErrorRec)),
      List.Forall₂ (fun p l =>
        checkEnumColumn data_file data multi p.1 p.2 = .ok l) allowed lists →
      ∀ e ∈ lists.flatten, ∃ p ∈ allowed, msgColumn e.message = some p.1 := by
  intro allowed lists h
  induction h with
  | nil => intro e he; exact absurd he (by simp)
  | cons hQ hrest ih =>
    intro e he
    rw [List.flatten_cons, List.mem_append] at he
    rcases he with he | he
    · exact ⟨_, by simp, (checkEnumColumn_names _ _ _ _ _ _ hQ e he).2⟩
    · obtain ⟨p, hp, hmsg⟩ := ih e he
      exact ⟨p, by simp [hp], hmsg⟩

/-- The per-column slice of the `check_enums` output, by induction over
the enum rows. -/
theorem check_enums_filter_aux (data_file : String) (data : DataTable)
    (multi : List String) :
    ∀ (frows : List DictRow) (allowed : List (String × List String))
      (lists : List (List ErrorRec)),
      List.Forall₂ (fun r p =>
        p.1 = r.varName ∧ get_enum_values r.choices = .ok p.2) frows allowed →
      List.Forall₂ (fun p l =>
        checkEnumColumn data_file data multi p.1 p.2 = .ok l) allowed lists →
      (frows.map (fun r => r.varName)).Nodup →
      ∀ row ∈ frows, ∀ (ev vals : List String),
        get_enum_values row.choices = .ok ev →
        lookupColumn data row.varName = some vals →
        lists.flatten.filter (fun e => msgColumn e.message == some row.varName) =
          enumColumnErrors data_file multi row.varName ev vals := by
  intro frows
  induction frows with
  | nil =>
    intro allowed lists h1 _ _ row hrow
    exact absurd hrow (by simp)
  | cons r frows2 ih =>
    intro allowed lists h1 h2 hnd row hrow ev vals hev hlook
    cases h1 with
    | cons hP h1x =>
      cases h2 with
      | cons hQ h2x =>
        rw [List.flatten_cons, List.filter_append]
        rcases List.mem_cons.mp hrow with rfl | hrow2
        · -- the row under scrutiny heads the list
          rename_i p allowed2 l lists2
          have hp1 : p.1 = row.varName := hP.1
          have hev2 : p.2 = ev := by
            have h := hP.2
            rw [hev] at h
            exact (Except.ok.injEq _ _ ▸ h : _) |>.symm ▸ rfl
          rw [hp1, hev2] at hQ
          rw [checkEnumColumn_ok_eq data_file data multi row.varName ev vals hlook]
            at hQ
          have hl : l = enumColumnErrors data_file multi row.varName ev vals := by
            cases hQ
            rfl
          have hfl : l.filter
              (fun e => msgColumn e.message == some row.varName) = l := by
            rw [List.filter_eq_self]
            intro e he
            have := (checkEnumColumn_names data_file data multi row.varName ev l
              (by rw [checkEnumColumn_ok_eq data_file data multi row.varName ev
                vals hlook, hl]) e he).2
            simp [this]
          have hfr : lists2.flatten.filter
              (fun e => msgColumn e.message == some row.varName) = [] := by
            rw [List.filter_eq_nil_iff]
            intro e he
            obtain ⟨p2, hp2, hmsg⟩ := flatten_names data_file data multi
              allowed2 lists2 h2x e he
            obtain ⟨r2, hr2, hPr2⟩ := forall₂_mem_right h1x p2 hp2
            have hneq : r2.varName ≠ row.varName := by
              have hnotin := (List.nodup_cons.mp hnd).1
              intro hcontra
              apply hnotin
              show row.varName ∈ List.map (fun x => x.varName) frows2
              rw [← hcontra]
              exact List.mem_map_of_mem (fun x => x.varName) hr2
            simp [hmsg, hPr2.1, hneq]
          rw [hfl, hfr, List.append_nil, hl]
        · -- the row under scrutiny lies further down
          rename_i p allowed2 l lists2
          have hfl : l.filter
              (fun e => msgColumn e.message == some row.varName) = [] := by
            rw [List.filter_eq_nil_iff]
            intro e he
            have hname := (checkEnumColumn_names data_file data multi p.1 p.2 l
              hQ e he).2
            have hneq : p.1 ≠ row.varName := by
              rw [hP.1]
              have hnotin := (List.nodup_cons.mp hnd).1
              intro hcontra
              apply hnotin
              show r.varName ∈ List.map (fun x => x.varName) frows2
              rw [hcontra]
              exact List.mem_map_of_mem (fun x => x.varName) hrow2
            simp [hname, hneq]
          rw [hfl, List.nil_append]
          exact ih allowed2 lists2 h1x h2x (List.nodup_cons.mp hnd).2 row hrow2
            ev vals hev hlook
/-- C7: for every column with a nonempty choices field, `check_enums`
appends exactly one ERROR listing every offending value when the
observed values (expanded on the pipe for declared list/checkbox
fields) are not a subset of the allowed set, and none otherwise; for
column `sex` with values 1,2,3,9 against the enum
`1, Male | 2, Female | 3, Intersex` it reports exactly one ERROR citing
the mismatch 9. -/
theorem check_enums_spec :
    check_enums "data.csv" [("sex", ["1", "2", "3", "9"])]
        [⟨"sex", "", "radio", "Sex", "1, Male | 2, Female | 3, Intersex",
          "", "", ""⟩] =
      .ok [⟨Severity.ERROR, "data.csv", Msg.invalidEnumValues "sex" ["9"]⟩]
    ∧ ∀ (data_file : String) (data : DataTable) (dictRows : List DictRow)
        (errs : List ErrorRec) (row : DictRow) (ev vals : List String),
        ((dictRows.filter (fun r => r.choices != "")).map
          (fun r => r.varName)).Nodup →
        check_enums data_file data dictRows = .ok errs →
        row ∈ dictRows → row.choices ≠ "" →
        get_enum_values row.choices = .ok ev →
        lookupColumn data row.varName = some vals →
        errs.filter (fun e => msgColumn e.message == some row.varName) =
          enumColumnErrors data_file (get_multi_value_fields dictRows)
            row.varName ev vals := by
  constructor
  · rfl
  · intro data_file data dictRows errs row ev vals hnd hok hmem hch hev hlook
    unfold check_enums at hok
    obtain ⟨allowed, hallowed, hok2⟩ := except_bind_ok _ _ _ hok
    obtain ⟨lists, hlists, hok3⟩ := except_bind_ok _ _ _ hok2
    have herrs : errs = lists.flatten := by
      have : Except.ok (ε := String) lists.flatten = .ok errs := hok3
      cases this
      rfl
    unfold get_allowed_values at hallowed
    have himp : ∀ (r : DictRow) (p : String × List String),
        (get_enum_values r.choices).map (fun vs => (r.varName, vs)) = .ok p →
        p.1 = r.varName ∧ get_enum_values r.choices = .ok p.2 := by
      intro r p hg
      rcases he : get_enum_values r.choices with e | vs
      · rw [he] at hg
        exact Except.noConfusion hg
      · rw [he] at hg
        have hh : Except.ok (ε := String) (r.varName, vs) = .ok p := hg
        cases hh
        exact ⟨rfl, rfl⟩
    have hP := (mapM_ok_forall₂ _ _ _ hallowed).imp himp
    have hQ := mapM_ok_forall₂ _ _ _ hlists
    have hfrow : row ∈ dictRows.filter (fun r => r.choices != "") :=
      List.mem_filter.mpr ⟨hmem, by simpa using hch⟩
    rw [herrs]
    exact check_enums_filter_aux data_file data (get_multi_value_fields dictRows)
      (dictRows.filter (fun r => r.choices != "")) allowed lists hP hQ hnd row
      hfrow ev vals hev hlook

/-- Witness for C7 at the sex column example. -/
theorem check_enums_spec_witness :
    ([⟨Severity.ERROR, "data.csv", Msg.invalidEnumValues "sex" ["9"]⟩] :
        List ErrorRec).filter
      (fun e => msgColumn e.message ==
        some (DictRow.varName ⟨"sex", "", "radio", "Sex",
          "1, Male | 2, Female | 3, Intersex", "", "", ""⟩)) =
      enumColumnErrors "data.csv"
        (get_multi_value_fields [⟨"sex", "", "radio", "Sex",
          "1, Male | 2, Female | 3, Intersex", "", "", ""⟩])
        (DictRow.varName ⟨"sex", "", "radio", "Sex",
          "1, Male | 2, Female | 3, Intersex", "", "", ""⟩)
        ["1", "2", "3"] ["1", "2", "3", "9"] :=
  check_enums_spec.2 "data.csv" [("sex", ["1", "2", "3", "9"])]
    [⟨"sex", "", "radio", "Sex", "1, Male | 2, Female | 3, Intersex",
      "", "", ""⟩]
    [⟨Severity.ERROR, "data.csv", Msg.invalidEnumValues "sex" ["9"]⟩]
    ⟨"sex", "", "radio", "Sex", "1, Male | 2, Female | 3, Intersex",
      "", "", ""⟩
    ["1", "2", "3"] ["1", "2", "3", "9"]
    (by decide) (by rfl) (by decide) (by decide) (by rfl) (by rfl)

/-- Every record of the per-column loop of `check_data_type` is an
ERROR naming its column. -/
theorem check_data_type_column_names (data_file : String)
    (dictRows : List DictRow) (column : String) (values : List String) :
    ∀ e ∈ check_data_type_column data_file dictRows column values,
      e.severity = Severity.ERROR ∧ msgColumn e.message = some column := by
  intro e he
  unfold check_data_type_column at he
  split at he
  · exact absurd he (by simp)
  · dsimp only at he
    rcases List.mem_append.mp he with hc | ht
    · split at hc
      · rcases List.mem_singleton.mp hc with rfl
        exact ⟨rfl, rfl⟩
      · exact absurd hc (by simp)
    · split at ht
      next t =>
        split at ht
        · exact absurd ht (by simp)
        · split at ht
          · exact absurd ht (by simp)
          · split at ht
            · exact absurd ht (by simp)
            · rcases List.mem_singleton.mp ht with rfl
              exact ⟨rfl, rfl⟩
      next => exact absurd ht (by simp)
      next ts h1 h2 =>
        split at ht
        · rcases List.mem_cons.mp ht with rfl | ht2
          · exact ⟨rfl, rfl⟩
          · rcases List.mem_singleton.mp ht2 with rfl
            exact ⟨rfl, rfl⟩
        · exact absurd ht (by simp)
/-- No `check_data_type` record names a column absent from the data. -/
theorem check_data_type_filter_absent (data_file : String)
    (dictRows : List DictRow) (column : String) :
    ∀ (data : DataTable), column ∉ data.map Prod.fst →
      (check_data_type data_file data dictRows).filter
        (fun e => msgColumn e.message == some column) = [] := by
  intro data
  induction data with
  | nil => intro _; rfl
  | cons c rest ih =>
    intro hno
    show ((check_data_type_column data_file dictRows c.1 c.2)
        ++ check_data_type data_file rest dictRows).filter
        (fun e => msgColumn e.message == some column) = []
    rw [List.filter_append]
    rw [ih (fun h => hno (by simp [h]))]
    rw [List.append_nil, List.filter_eq_nil_iff]
    intro e he
    have hn := (check_data_type_column_names data_file dictRows c.1 c.2 e he).2
    have hne : c.1 ≠ column := fun h => hno (by simp [← h])
    simp [hn, hne]

/-- The per-column slice of the `check_data_type` output is that
column's own error list. -/
theorem check_data_type_filter (data_file : String) (dictRows : List DictRow)
    (column : String) (values : List String) :
    ∀ (data : DataTable), (column, values) ∈ data →
      (data.map Prod.fst).Nodup →
      (check_data_type data_file data dictRows).filter
        (fun e => msgColumn e.message == some column) =
      check_data_type_column data_file dictRows column values := by
  intro data
  induction data with
  | nil => intro h _; exact absurd h (by simp)
  | cons c rest ih =>
    intro hmem hnd
    show ((check_data_type_column data_file dictRows c.1 c.2)
        ++ check_data_type data_file rest dictRows).filter
        (fun e => msgColumn e.message == some column) =
      check_data_type_column data_file dictRows column values
    rw [List.filter_append]
    rcases List.mem_cons.mp hmem with rfl | hmem2
    · rw [check_data_type_filter_absent data_file dictRows column rest
        (List.nodup_cons.mp hnd).1]
      rw [List.append_nil, List.filter_eq_self]
      intro e he
      have hn := (check_data_type_column_names data_file dictRows
        column values e he).2
      simp [hn]
    · have hne : c.1 ≠ column := by
        intro h
        have : column ∈ rest.map Prod.fst :=
          List.mem_map_of_mem Prod.fst hmem2
        exact (List.nodup_cons.mp hnd).1 (h ▸ this)
      have hself : (check_data_type_column data_file dictRows c.1 c.2).filter
          (fun e => msgColumn e.message == some column) = [] := by
        rw [List.filter_eq_nil_iff]
        intro e he
        have hn := (check_data_type_column_names data_file dictRows
          c.1 c.2 e he).2
        simp [hn, hne]
      rw [hself, List.nil_append]
      exact ih hmem2 (List.nodup_cons.mp hnd).2
/-- Null normalization blanks a cell or leaves a non-null cell
unchanged. -/
theorem normNA_cases (v : String) :
    normNA v = "" ∨ (normNA v = v ∧ v ∉ NULL_VALUES) := by
  unfold normNA
  split
  · exact Or.inl rfl
  next h => exact Or.inr ⟨rfl, fun hm => h (by simpa using hm)⟩

/-- Null normalization introduces no pipe. -/
theorem normNA_pipe (v : String) (h : strContains v '|' = false) :
    strContains (normNA v) '|' = false := by
  rcases normNA_cases v with h1 | ⟨h1, _⟩
  · rw [h1]; rfl
  · rw [h1]; exact h

/-- Scalar classification of a non-blank, non-null value: integer parse
first, then float, else string. -/
theorem determineTypeScalar_spec (v : String) (hne : v ≠ "")
    (hnull : v ∉ NULL_VALUES) :
    determineTypeScalar v =
      if pyIntParses v then "integer"
      else if pyFloatParses v then "float" else "string" := by
  have h1 : (v == "") = false := beq_false_of_ne hne
  have h2 : NULL_VALUES.contains v = false := by
    rcases hc : NULL_VALUES.contains v with _ | _
    · rfl
    · exact absurd (List.elem_iff.mp hc) hnull
  unfold determineTypeScalar
  rw [h1, h2]
  simp only [Bool.false_eq_true, if_false]

/-- A duplicate-free list of equal elements has at most one. -/
theorem nodup_all_eq {α : Type} (l : List α) (a : α) (hnd : l.Nodup)
    (h : ∀ x ∈ l, x = a) : l = [] ∨ l = [a] := by
  cases l with
  | nil => exact Or.inl rfl
  | cons x t =>
    right
    have hx : x = a := h x (by simp)
    cases t with
    | nil => rw [hx]
    | cons y t2 =>
      exfalso
      have hy : y = a := h y (by simp)
      exact (List.nodup_cons.mp hnd).1 (by simp [hx, hy])

/-- A column whose values are all blank or integer has observed type
list empty or exactly integer. -/
theorem get_column_type_all_integer (vals : List String)
    (h : ∀ v ∈ vals, determine_type v = "blank" ∨ determine_type v = "integer") :
    get_column_type vals = [] ∨ get_column_type vals = ["integer"] := by
  unfold get_column_type
  dsimp only
  set uniq := uniqueList (vals.map determine_type) with huniq
  have hnd : uniq.Nodup := uniqueList_nodup _
  set erased := uniq.erase "blank" with herased
  have hmem : ∀ x ∈ erased, x = "integer" := by
    intro x hx
    have hxu : x ∈ uniq := List.mem_of_mem_erase hx
    have hxne : x ≠ "blank" := ((List.Nodup.mem_erase_iff hnd).mp hx).1
    have hxr : x ∈ vals.map determine_type := (uniqueList_mem x _).mp hxu
    obtain ⟨v, hv, hdv⟩ := List.mem_map.mp hxr
    rcases h v hv with hb | hi
    · exact absurd (hdv ▸ hb : x = "blank") hxne
    · exact hdv ▸ hi
  have hlen : erased.length ≤ 1 := by
    rcases nodup_all_eq erased "integer" (List.Nodup.erase _ hnd) hmem with
      h1 | h1 <;> simp [h1]
  have hcond : (erased.length == 2 && erased.contains "integer"
      && erased.contains "float") = false := by
    rcases h2 : erased.length == 2 with _ | _
    · simp
    · exfalso
      have : erased.length = 2 := by simpa using h2
      omega
  rw [hcond]
  simp only [Bool.false_eq_true, if_false]
  exact nodup_all_eq erased "integer" (List.Nodup.erase _ hnd) hmem

/-- A column with a value that is neither blank nor integer has a
nonempty observed type list different from the integer singleton. -/
theorem get_column_type_has_offender (vals : List String) (v0 : String)
    (hv0 : v0 ∈ vals) (ht : determine_type v0 ≠ "blank")
    (ht2 : determine_type v0 ≠ "integer") :
    get_column_type vals ≠ [] ∧ get_column_type vals ≠ ["integer"] := by
  unfold get_column_type
  dsimp only
  set uniq := uniqueList (vals.map determine_type) with huniq
  have hnd : uniq.Nodup := uniqueList_nodup _
  set erased := uniq.erase "blank" with herased
  have hmem : determine_type v0 ∈ erased := by
    rw [herased, List.mem_erase_of_ne ht]
    rw [huniq, uniqueList_mem]
    exact List.mem_map_of_mem determine_type hv0
  rcases hcond : (erased.length == 2 && erased.contains "integer"
      && erased.contains "float") with _ | _
  · show erased ≠ [] ∧ erased ≠ ["integer"]
    constructor
    · intro h
      rw [h] at hmem
      exact absurd hmem (by simp)
    · intro h
      rw [h] at hmem
      exact ht2 (by simpa using hmem)
  · show (["float"] : List String) ≠ [] ∧ (["float"] : List String) ≠ ["integer"]
    exact ⟨by simp, by simp⟩
/-- The number of errors the per-column loop appends for a pipe-free
column of declared effective type integer: none when every non-blank
normalized value parses as an integer, one when the observed types
collapse to a single type, two when several types are observed. -/
theorem check_data_type_column_integer (data_file : String)
    (dictRows : List DictRow) (column : String) (values : List String)
    (hc1 : column ≠ "type") (hc2 : column ≠ "cardinality")
    (hdt : get_dictionary_data_types dictRows column = some "integer")
    (hnp : ∀ v ∈ values, strContains v '|' = false) :
    (check_data_type_column data_file dictRows column values).length =
      if ∃ v ∈ values, normNA v ≠ "" ∧ pyIntParses (normNA v) = false then
        (if (get_column_type (values.map normNA)).length = 1 then 1 else 2)
      else 0 := by
  have hscalar : ∀ v ∈ values, determine_type (normNA v) =
      determineTypeScalar (normNA v) := by
    intro v hv
    unfold determine_type
    rw [normNA_pipe v (hnp v hv)]
    simp
  unfold check_data_type_column
  have hite : (column == "type" || column == "cardinality") = false := by
    simp [hc1, hc2]
  rw [hite]
  simp only [Bool.false_eq_true, if_false]
  have hcard : get_column_cardinality (values.map normNA) = "single" := by
    unfold get_column_cardinality
    rw [if_neg]
    intro h
    rw [List.any_eq_true] at h
    obtain ⟨v', hv', hp⟩ := h
    obtain ⟨v, hv, rfl⟩ := List.mem_map.mp hv'
    rw [normNA_pipe v (hnp v hv)] at hp
    exact Bool.noConfusion hp
  have hcardE : (get_column_cardinality (values.map normNA) == "multiple"
      && get_dictionary_cardinality dictRows column == some "single") = false := by
    rw [hcard]
    rfl
  rw [hcardE]
  simp only [Bool.false_eq_true, if_false, List.nil_append]
  rw [hdt]
  by_cases hex : ∃ v ∈ values, normNA v ≠ "" ∧ pyIntParses (normNA v) = false
  · rw [if_pos hex]
    obtain ⟨v0, hv0, hvne, hvint⟩ := hex
    have hvv : normNA v0 = v0 ∧ v0 ∉ NULL_VALUES := by
      rcases normNA_cases v0 with h | h
      · exact absurd h hvne
      · exact h
    have ht0 : determine_type (normNA v0) ≠ "blank"
        ∧ determine_type (normNA v0) ≠ "integer" := by
      rw [hscalar v0 hv0, determineTypeScalar_spec (normNA v0) hvne
        (by rw [hvv.1]; exact hvv.2)]
      rw [hvv.1] at hvint ⊢
      rw [hvint]
      simp only [Bool.false_eq_true, if_false]
      split <;> exact ⟨by decide, by decide⟩
    have hoff := get_column_type_has_offender (values.map normNA) (normNA v0)
      (List.mem_map_of_mem normNA hv0) ht0.1 ht0.2
    rcases htypes : get_column_type (values.map normNA) with _ | ⟨t, ts⟩
    · exact absurd htypes hoff.1
    · cases ts with
      | nil =>
        have htne : t ≠ "integer" := by
          intro h
          exact hoff.2 (by rw [htypes, h])
        have hb1 : (some t == some "integer") = false := by
          simp [htne]
        dsimp only
        rw [hb1]
        have e1 : ((some "integer" : Option String) == some "string") = false := rfl
        have e2 : ((some "integer" : Option String) == some "float") = false := rfl
        rw [e1, e2]
        simp only [Bool.false_and, Bool.false_eq_true, if_false]
        rw [if_pos (by simp : ([t].length = 1))]
        rfl
      | cons t2 ts2 =>
        dsimp only
        rw [if_neg (show ¬(t :: t2 :: ts2).length = 1 by simp)]
        rfl
  · rw [if_neg hex]
    push_neg at hex
    have hall : ∀ v' ∈ values.map normNA,
        determine_type v' = "blank" ∨ determine_type v' = "integer" := by
      intro v' hv'
      obtain ⟨v, hv, rfl⟩ := List.mem_map.mp hv'
      by_cases hb : normNA v = ""
      · rw [hscalar v hv, hb]
        exact Or.inl rfl
      · have hint := hex v hv hb
        have hvv : normNA v = v ∧ v ∉ NULL_VALUES := by
          rcases normNA_cases v with h | h
          · exact absurd h hb
          · exact h
        right
        have hint2 : pyIntParses (normNA v) = true := by
          revert hint
          cases pyIntParses (normNA v) <;> simp
        rw [hscalar v hv, determineTypeScalar_spec (normNA v) hb
          (by rw [hvv.1]; exact hvv.2), hint2]
        rfl
    rcases get_column_type_all_integer (values.map normNA) hall with h | h
    · rw [h]
      rfl
    · rw [h]
      rfl
/-- C1 (amended): for a column of dictionary-declared effective type
integer and no multi-values, `check_data_type` appends at least one and
at most two ERRORs naming the column when some non-blank value fails the
integer parse — exactly one when the observed types collapse to one
type, exactly two (the mixed-type ERROR plus the offending-values ERROR)
when more than one type is observed — and none when all such values
parse; every record naming the column is an ERROR. -/
theorem check_data_type_integer_column_errors (data_file : String)
    (data : DataTable) (dictRows : List DictRow) (column : String)
    (values : List String)
    (hmem : (column, values) ∈ data)
    (hnodup : (data.map Prod.fst).Nodup)
    (hc1 : column ≠ "type") (hc2 : column ≠ "cardinality")
    (hdt : get_dictionary_data_types dictRows column = some "integer")
    (hnp : ∀ v ∈ values, strContains v '|' = false) :
    ((check_data_type data_file data dictRows).filter
        (fun e => msgColumn e.message == some column)).length =
      (if ∃ v ∈ values, normNA v ≠ "" ∧ pyIntParses (normNA v) = false then
        (if (get_column_type (values.map normNA)).length = 1 then 1 else 2)
      else 0)
    ∧ ∀ e ∈ (check_data_type data_file data dictRows).filter
        (fun e => msgColumn e.message == some column),
      e.severity = Severity.ERROR := by
  rw [check_data_type_filter data_file dictRows column values data hmem hnodup]
  refine ⟨check_data_type_column_integer data_file dictRows column values
    hc1 hc2 hdt hnp, fun e he => ?_⟩
  exact (check_data_type_column_names data_file dictRows column values e he).1

/-- C1 counterexample: a column declared integer holding the values 1
and abc receives two ERRORs naming it, not exactly one as claimed. -/
theorem check_data_type_counterexample :
    get_dictionary_data_types [⟨"x", "", "integer", "x", "", "", "", ""⟩] "x"
      = some "integer"
    ∧ normNA "abc" ≠ "" ∧ pyIntParses "abc" = false
    ∧ strContains "abc" '|' = false
    ∧ ((check_data_type "data.csv" [("x", ["1", "abc"])]
        [⟨"x", "", "integer", "x", "", "", "", ""⟩]).filter
        (fun e => msgColumn e.message == some "x")).length = 2 :=
  ⟨by rfl, by decide, by rfl, by rfl, by rfl⟩

/-- Witness for C1 (amended) at the two-error column. -/
theorem check_data_type_integer_column_errors_witness :
    (((check_data_type "data.csv" [("x", ["1", "abc"])]
        [⟨"x", "", "integer", "x", "", "", "", ""⟩]).filter
        (fun e => msgColumn e.message == some "x")).length =
      (if ∃ v ∈ ["1", "abc"], normNA v ≠ "" ∧ pyIntParses (normNA v) = false then
        (if (get_column_type (["1", "abc"].map normNA)).length = 1 then 1 else 2)
      else 0))
    ∧ ∀ e ∈ (check_data_type "data.csv" [("x", ["1", "abc"])]
        [⟨"x", "", "integer", "x", "", "", "", ""⟩]).filter
        (fun e => msgColumn e.message == some "x"),
      e.severity = Severity.ERROR :=
  check_data_type_integer_column_errors "data.csv" [("x", ["1", "abc"])]
    [⟨"x", "", "integer", "x", "", "", "", ""⟩] "x" ["1", "abc"]
    (by decide) (by simp) (by decide) (by decide) (by rfl) (by decide)

end RadxHarmonizer
